import Mathlib

/-!
Verification of the NPArray library (src/include/nparray.hpp).

The embedding models the header-only C++ library at the byte level:

* a file and every buffer is a `List Nat` of byte values;
* header text is a `List Nat` of ASCII codes (written in comments);
* `size_t` / `uint64_t` arithmetic is `Nat` arithmetic reduced `% 2^64`
  at each operation where the source performs machine arithmetic;
* functions that `throw` are modelled as `Except NpErr`;
* the host byte order probe `system_is_little_endian()` (line 910) is a
  parameter `e : Bool` (`true` = little-endian host), so theorems can
  quantify over the host byte order;
* `std::ifstream`/`std::ofstream` are byte streams.  A short read (which
  in the source silently leaves buffer bytes indeterminate) is modelled
  as the error `NpErr.truncated`.

Line numbers in comments refer to src/include/nparray.hpp.
-/

namespace Np

/-- Error kinds of the library, one constructor per distinct throw site
family (§7 of the spec).  The source throws `std::runtime_error` or
`std::out_of_range` with a message; messages are dropped here. -/
inductive NpErr where
  | shapeError          -- empty shape vector / shape-data mismatch (lines 214, 232, 241, 460, 474, 485)
  | improperIndices     -- wrong number of indices (lines 505, 523)
  | indexOutOfRange     -- index beyond extent (lines 512, 530)
  | unsupportedType     -- datatype not supported (lines 265, 442)
  | dtypeMismatch       -- file dtype differs from template type (line 281)
  | invalidFile         -- bad magic string (line 608)
  | unknownDType        -- unknown descr token (line 843)
  | unsupportedWidth    -- swap_bytes with width outside the table (line 936)
  | stoiFailure         -- std::stoi: no digits or value out of int range (line 705/711)
  | malformedHeader     -- header.find miss: source would index with npos (UB), modelled as an error
  | truncated           -- short read: source leaves garbage bytes (UB), modelled as an error
deriving DecidableEq, Repr

/-- Decidable equality of results, so that concrete runs of the model
can be settled by `decide`. -/
instance {ε α : Type _} [DecidableEq ε] [DecidableEq α] :
    DecidableEq (Except ε α) := fun a b =>
  match a, b with
  | .error x, .error y =>
    if h : x = y then .isTrue (by rw [h])
    else .isFalse (fun hh => h (by injection hh))
  | .ok x, .ok y =>
    if h : x = y then .isTrue (by rw [h])
    else .isFalse (fun hh => h (by injection hh))
  | .error _, .ok _ => .isFalse (fun hh => Except.noConfusion hh)
  | .ok _, .error _ => .isFalse (fun hh => Except.noConfusion hh)

/-- DType enumeration, line 150. -/
inductive DType where
  | CHAR | UCHAR | INT16 | INT32 | INT64 | UINT16 | UINT32 | UINT64
  | FLOAT32 | DOUBLE64 | COMPLEX64 | COMPLEX128
deriving DecidableEq, Repr

/-- Modulus of `size_t` / `uint64_t` arithmetic. -/
def U64 : Nat := 18446744073709551616

/-- Unchecked vector indexing `v[i]` on a size_t vector: reading out of
range is UB in the source and yields 0 here (never reached behind the
checks the theorems carry). -/
def nth (l : List Nat) (i : Nat) : Nat := l.getD i 0

/-- Number of elements of a shape as the source computes it:
`ne = shape[0]; for i in [1,dims) ne *= shape[i];` in `size_t`
arithmetic (lines 204-207, 226-229, 291-294, 464-468, 489-492, 716-717).
A `[]` shape is unreachable behind the rank checks; 0 is used there. -/
def neOf : List Nat → Nat
  | [] => 0
  | d :: tl => tl.foldl (fun a b => a * b % U64) d

/-- descr_to_DType, lines 817-846.  Tokens are ASCII byte lists:
b1, B1, i2, i4, i8, u2, u4, u8, f4, f8, c8, c16. -/
def descr_to_DType (t : List Nat) : Except NpErr DType :=
  if t = [98, 49] then .ok .CHAR            -- b1
  else if t = [66, 49] then .ok .UCHAR      -- B1
  else if t = [105, 50] then .ok .INT16     -- i2
  else if t = [105, 52] then .ok .INT32     -- i4
  else if t = [105, 56] then .ok .INT64     -- i8
  else if t = [117, 50] then .ok .UINT16    -- u2
  else if t = [117, 52] then .ok .UINT32    -- u4
  else if t = [117, 56] then .ok .UINT64    -- u8
  else if t = [102, 52] then .ok .FLOAT32   -- f4
  else if t = [102, 56] then .ok .DOUBLE64  -- f8
  else if t = [99, 56] then .ok .COMPLEX64  -- c8
  else if t = [99, 49, 54] then .ok .COMPLEX128  -- c16
  else .error .unknownDType

/-- DType_to_descr, lines 848-877 (total over the closed enum; the
final `else` throw is unreachable). -/
def DType_to_descr : DType → List Nat
  | .CHAR => [98, 49]
  | .UCHAR => [66, 49]
  | .INT16 => [105, 50]
  | .INT32 => [105, 52]
  | .INT64 => [105, 56]
  | .UINT16 => [117, 50]
  | .UINT32 => [117, 52]
  | .UINT64 => [117, 56]
  | .FLOAT32 => [102, 52]
  | .DOUBLE64 => [102, 56]
  | .COMPLEX64 => [99, 56]
  | .COMPLEX128 => [99, 49, 54]

/-- size_of_DType, lines 879-908. -/
def size_of_DType : DType → Nat
  | .CHAR => 1
  | .UCHAR => 1
  | .INT16 => 2
  | .INT32 => 4
  | .INT64 => 8
  | .UINT16 => 2
  | .UINT32 => 4
  | .UINT64 => 8
  | .FLOAT32 => 4
  | .DOUBLE64 => 8
  | .COMPLEX64 => 8
  | .COMPLEX128 => 16

/-- swap_two_bytes, lines 943-953: exchanges the first two bytes in
place, leaving the remainder of the buffer untouched.  A buffer with
fewer than 2 bytes is UB in the source; modelled as a no-op. -/
def swap_two_bytes : List Nat → List Nat
  | b0 :: b1 :: r => b1 :: b0 :: r
  | l => l

/-- swap_four_bytes, lines 955-967. -/
def swap_four_bytes : List Nat → List Nat
  | b0 :: b1 :: b2 :: b3 :: r => b3 :: b2 :: b1 :: b0 :: r
  | l => l

/-- swap_eight_bytes, lines 969-985. -/
def swap_eight_bytes : List Nat → List Nat
  | b0 :: b1 :: b2 :: b3 :: b4 :: b5 :: b6 :: b7 :: r =>
      b7 :: b6 :: b5 :: b4 :: b3 :: b2 :: b1 :: b0 :: r
  | l => l

/-- swap_sixteen_bytes, lines 987-1011. -/
def swap_sixteen_bytes : List Nat → List Nat
  | b0 :: b1 :: b2 :: b3 :: b4 :: b5 :: b6 :: b7 ::
    b8 :: b9 :: b10 :: b11 :: b12 :: b13 :: b14 :: b15 :: r =>
      b15 :: b14 :: b13 :: b12 :: b11 :: b10 :: b9 :: b8 ::
      b7 :: b6 :: b5 :: b4 :: b3 :: b2 :: b1 :: b0 :: r
  | l => l

/-- Body of one iteration of the swap_bytes loop (lines 924-939):
dispatch on the element width, touching only the first `w` bytes. -/
def swapElem (w : Nat) (data : List Nat) : Except NpErr (List Nat) :=
  if w = 1 then .ok data               -- "Nothing to do"
  else if w = 2 then .ok (swap_two_bytes data)
  else if w = 4 then .ok (swap_four_bytes data)
  else if w = 8 then .ok (swap_eight_bytes data)
  else if w = 16 then .ok (swap_sixteen_bytes data)
  else .error .unsupportedWidth

/-- swap_bytes, lines 919-941: swap each of `n` elements of width `w` in
place.  The source walks offsets `0, w, 2w, ...`; here the processed
prefix is reassembled around the recursive call.  The source comment
warns that a buffer whose size is not `n*w` is undefined behavior. -/
def swap_bytes (data : List Nat) (n w : Nat) : Except NpErr (List Nat) :=
  match n with
  | 0 => .ok data
  | n + 1 =>
    match swapElem w data with
    | .error er => .error er
    | .ok d' =>
      match swap_bytes (d'.drop w) n w with
      | .error er => .error er
      | .ok rest => .ok (d'.take w ++ rest)

/-! ### Header text constants (ASCII codes)

The writer builds the header out of these literal pieces (lines
751-771) and the reader searches for them (lines 649, 668, 690-691).
The text of each constant is given in the comment. -/

/-- Bytes of the text fragment starting the header:
open brace, quote, descr, quote, colon, space, quote. -/
def descrOpen : List Nat := [123, 39, 100, 101, 115, 99, 114, 39, 58, 32, 39]

/-- Bytes of: quote, comma, space (after the descr token, line 757). -/
def quoteCommaSp : List Nat := [39, 44, 32]

/-- Bytes of the fortran_order key text with quotes, colon and trailing
space; this is also the 17-byte pattern searched at line 649. -/
def fortranKey : List Nat :=
  [39, 102, 111, 114, 116, 114, 97, 110, 95, 111, 114, 100, 101, 114, 39, 58, 32]

/-- Bytes of the token False followed by comma and space (line 762). -/
def falseCommaSp : List Nat := [70, 97, 108, 115, 101, 44, 32]

/-- Bytes of the token True followed by comma and space (line 764). -/
def trueCommaSp : List Nat := [84, 114, 117, 101, 44, 32]

/-- Bytes of the token False alone (compared at line 662). -/
def falseTok : List Nat := [70, 97, 108, 115, 101]

/-- Bytes of the shape key text with quotes, colon, space and the
opening parenthesis (line 767). -/
def shapeOpen : List Nat := [39, 115, 104, 97, 112, 101, 39, 58, 32, 40]

/-- Bytes closing the header dictionary: close paren, comma, space,
close brace (line 771). -/
def closeDict : List Nat := [41, 44, 32, 125]

/-- Bytes of the pattern searched for the descr field at line 668:
quote, descr, quote, colon, space. -/
def descrKey : List Nat := [39, 100, 101, 115, 99, 114, 39, 58, 32]

/-- The 6 magic bytes 0x93 N U M P Y (lines 605-607, 748). -/
def magicBytes : List Nat := [147, 78, 85, 77, 80, 89]

/-! ### std::string helpers used by the codec -/

/-- std::string::find of a pattern: index of the first occurrence, or
`none` for `npos`. -/
def strFind (pat : List Nat) : List Nat → Option Nat
  | [] => if pat.isPrefixOf ([] : List Nat) then some 0 else none
  | a :: t =>
    if pat.isPrefixOf (a :: t) then some 0
    else (strFind pat t).map (· + 1)

/-- The scanning loops at lines 653-661 (terminator comma) and 677-685
(terminator quote): collect bytes that are not a space until the
terminator byte is reached.  Running off the end of the buffer is UB in
the source (the loop reads past the string); modelled as `none`. -/
def scanUntil (term : Nat) : List Nat → Option (List Nat)
  | [] => none
  | c :: rest =>
    if c = 32 then scanUntil term rest
    else if c = term then some []
    else (scanUntil term rest).map (c :: ·)

/-- std::to_string for an unsigned value, as decimal ASCII digits
(helper for line 769).  Structural recursion on a fuel argument that
starts at `n` itself, which always suffices since `n / 10 < n`; the
fuel-exhausted base emits the remaining low digit and is reached only
for `n = 0`. -/
def natBytesAux : Nat → Nat → List Nat → List Nat
  | 0, n, acc => (48 + n % 10) :: acc
  | fuel + 1, n, acc =>
    if n < 10 then (48 + n) :: acc
    else natBytesAux fuel (n / 10) ((48 + n % 10) :: acc)

/-- Decimal digit bytes of `n` (std::to_string at line 769). -/
def natBytes (n : Nat) : List Nat := natBytesAux n n []

/-- Value of INT_MAX for a 32-bit `int`, the bound beyond which
std::stoi throws std::out_of_range. -/
def INT_MAX : Nat := 2147483647

/-- Tests whether a byte is an ASCII decimal digit. -/
def isDigitB (c : Nat) : Bool := decide (48 ≤ c ∧ c ≤ 57)

/-- std::stoi (line 705, 711) on a shape token: skips leading spaces,
converts the leading run of decimal digits, throws (modelled as error)
when there are no digits or the value exceeds INT_MAX.  Sign prefixes
never occur in the tokens the parser produces and are not modelled. -/
def stoiNat (s : List Nat) : Except NpErr Nat :=
  if ((s.dropWhile (· = 32)).takeWhile isDigitB).isEmpty then
    .error .stoiFailure
  else if ((s.dropWhile (· = 32)).takeWhile isDigitB).foldl
      (fun a c => 10 * a + (c - 48)) 0 > INT_MAX then
    .error .stoiFailure
  else
    .ok (((s.dropWhile (· = 32)).takeWhile isDigitB).foldl
      (fun a c => 10 * a + (c - 48)) 0)

/-- The shape-list splitting loop, lines 699-712: walk the bytes
between the parentheses, accumulating a token until each comma, and
convert each nonempty token with std::stoi; after the loop a final
nonempty token is converted too. -/
def splitStoi : List Nat → List Nat → List Nat → Except NpErr (List Nat)
  | [], temp, acc =>
    if temp.isEmpty then .ok acc
    else match stoiNat temp with
      | .error er => .error er
      | .ok v => .ok (acc ++ [v])
  | c :: rest, temp, acc =>
    if c ≠ 44 then splitStoi rest (temp ++ [c]) acc
    else if temp.isEmpty then splitStoi rest [] acc
    else match stoiNat temp with
      | .error er => .error er
      | .ok v => splitStoi rest [] (acc ++ [v])

/-- Splits off exactly `n` leading elements, or fails.  Models
`file.read(buf, n)`: the source does not check for a short read and
would leave indeterminate bytes; a short read is `none` here. -/
def takeExact (n : Nat) (l : List α) : Option (List α × List α) :=
  if n ≤ l.length then some (l.take n, l.drop n) else none

/-! ### Decoder (load_npy, lines 595-734) -/

/-- Value of the `uint16_t` whose two object-representation bytes are
`m` on a host with byte order `e` (`true` = little-endian). -/
def u16FromMem (e : Bool) (m : List Nat) : Nat :=
  if e then nth m 0 + 256 * nth m 1
  else 256 * nth m 0 + nth m 1

/-- Value of the `uint32_t` whose four object-representation bytes are
`m` on a host with byte order `e`. -/
def u32FromMem (e : Bool) (m : List Nat) : Nat :=
  if e then
    nth m 0 + 256 * nth m 1 + 65536 * nth m 2 + 16777216 * nth m 3
  else
    16777216 * nth m 0 + 65536 * nth m 1 + 256 * nth m 2 + nth m 3

/-- Reading the header-length field, lines 617-641.  `major` is the
raw major-version byte; the source compares the (signed) `char` against
`0x01` and `>= 0x02`, so bytes 0x80-0xff are negative and, like 0x00,
select NEITHER branch: no bytes are consumed and the length stays 0.
In each branch the source calls `swap_bytes(ptr, 2, 1)` resp.
`swap_bytes(ptr, 4, 1)` on a big-endian host; element width 1 makes
both calls no-ops. -/
def readLenField (e : Bool) (major : Nat) (rest : List Nat) :
    Except NpErr (Nat × List Nat) :=
  if major = 1 then
    match takeExact 2 rest with
    | none => .error .truncated
    | some (bs, rest') =>
      match (if e then .ok bs else swap_bytes bs 2 1 : Except NpErr (List Nat)) with
      | .error er => .error er
      | .ok mem => .ok (u16FromMem e mem, rest')
  else if 2 ≤ major ∧ major ≤ 127 then
    match takeExact 4 rest with
    | none => .error .truncated
    | some (bs, rest') =>
      match (if e then .ok bs else swap_bytes bs 4 1 : Except NpErr (List Nat)) with
      | .error er => .error er
      | .ok mem => .ok (u32FromMem e mem, rest')
  else
    .ok (0, rest)

/-- Parsing the fortran_order field, lines 649-665: find the key
pattern, skip its 17 bytes, scan the token up to the comma, and map
token `False` to c-contiguous `true`, every other token to `false`. -/
def parseFortran (header : List Nat) : Except NpErr Bool :=
  match strFind fortranKey header with
  | none => .error .malformedHeader
  | some loc1 =>
    match scanUntil 44 (header.drop (loc1 + 17)) with
    | none => .error .malformedHeader
    | some tok => .ok (tok == falseTok)

/-- Parsing the descr field, lines 668-686: find the key pattern, read
the endianness marker at offset +1 past the opening quote (byte 62 `>`
means big-endian data, anything else little-endian), scan the token
from offset +2 up to the closing quote.  Returns (data is little
endian, token). -/
def parseDescr (header : List Nat) : Except NpErr (Bool × DType) :=
  match strFind descrKey header with
  | none => .error .malformedHeader
  | some loc0 =>
    match scanUntil 39 (header.drop (loc0 + 9 + 2)) with
    | none => .error .malformedHeader
    | some tok =>
      match descr_to_DType tok with
      | .error er => .error er
      | .ok dt => .ok (!(nth header (loc0 + 9 + 1) == 62), dt)

/-- Parsing the shape field, lines 690-713: the bytes strictly between
the first `(` and the first `)`; an empty pair yields shape `[1]`,
otherwise the comma-separated tokens are converted with std::stoi. -/
def parseShape (header : List Nat) : Except NpErr (List Nat) :=
  match strFind [40] header with
  | none => .error .malformedHeader
  | some l1 =>
    match strFind [41] header with
    | none => .error .malformedHeader
    | some l2 =>
      if l1 + 1 = l2 then .ok [1]
      else splitStoi ((header.drop (l1 + 1)).take (l2 - (l1 + 1))) [] []

/-- load_npy, lines 595-734, on a file given as a byte list for a host
with byte order `e`.  Returns (payload bytes after any byte-order
correction, shape, dtype, c_contiguous). -/
def load_npy (e : Bool) (file : List Nat) :
    Except NpErr (List Nat × List Nat × DType × Bool) :=
  match takeExact 6 file with
  | none => .error .truncated
  | some (magic, r1) =>
    if magic ≠ magicBytes then .error .invalidFile
    else match takeExact 2 r1 with
    | none => .error .truncated
    | some (vb, r2) =>
      match readLenField e (nth vb 0) r2 with
      | .error er => .error er
      | .ok (lenH, r3) =>
        match takeExact lenH r3 with
        | none => .error .truncated
        | some (header, r4) =>
          match parseFortran header with
          | .error er => .error er
          | .ok cContig =>
            match parseDescr header with
            | .error er => .error er
            | .ok (dataLittle, dtype) =>
              match parseShape header with
              | .error er => .error er
              | .ok shape =>
                match takeExact (neOf shape * size_of_DType dtype % U64) r4 with
                | none => .error .truncated
                | some (data, _) =>
                  match (if e ≠ dataLittle then
                           swap_bytes data (neOf shape) (size_of_DType dtype)
                         else .ok data : Except NpErr (List Nat)) with
                  | .error er => .error er
                  | .ok data' => .ok (data', shape, dtype, cContig)

/-! ### Encoder (write_npy, lines 736-815) -/

/-- The shape portion of the header: the loop at lines 768-770 appends
`to_string(e) + comma` for each extent to the accumulated header. -/
def shapeFold (shape : List Nat) (init : List Nat) : List Nat :=
  shape.foldl (fun h d => h ++ natBytes d ++ [44]) init

/-- The header text before padding, lines 751-771, for host byte order
`e` (marker byte 60 `<` when little-endian, 62 `>` otherwise). -/
def headerBytes (e : Bool) (shape : List Nat) (dtype : DType) (c : Bool) :
    List Nat :=
  let h := descrOpen ++ (if e then [60] else [62]) ++ DType_to_descr dtype ++
    quoteCommaSp
  let h := h ++ fortranKey ++ (if c then falseCommaSp else trueCommaSp)
  let h := h ++ shapeOpen
  shapeFold shape h ++ closeDict

/-- beginning_length, line 776: 6 magic + 2 version + 2 length-field
bytes + header text. -/
def npyBeginning (e : Bool) (shape : List Nat) (dtype : DType) (c : Bool) :
    Nat :=
  6 + 2 + 2 + (headerBytes e shape dtype c).length

/-- padding_needed, line 777 (a value in 1..64; fits the `uint8_t`). -/
def npyPadding (e : Bool) (shape : List Nat) (dtype : DType) (c : Bool) :
    Nat :=
  64 - npyBeginning e shape dtype c % 64

/-- Major version selection, lines 778-782.  In the version-2 branch
the source also executes `beginning_length += 2`, but that variable is
never read afterwards, so it has no observable effect. -/
def npyMajor (e : Bool) (shape : List Nat) (dtype : DType) (c : Bool) : Nat :=
  if npyBeginning e shape dtype c + npyPadding e shape dtype c > 65535
  then 2 else 1

/-- The padded header text: `padding_needed - 1` spaces and a newline
appended (lines 784-785). -/
def headerPadded (e : Bool) (shape : List Nat) (dtype : DType) (c : Bool) :
    List Nat :=
  headerBytes e shape dtype c ++
    List.replicate (npyPadding e shape dtype c - 1) 32 ++ [10]

/-- The emitted header-length field, lines 791-804.  The padded header
size is cast to `uint16_t` (v1) or `uint32_t` (v2), stored in host
byte order, byte-swapped on a big-endian host, and the object
representation bytes are written. -/
def npyLenBytes (e : Bool) (shape : List Nat) (dtype : DType) (c : Bool) :
    List Nat :=
  if npyMajor e shape dtype c = 1 then
    if e then
      [(headerPadded e shape dtype c).length % 65536 % 256,
       (headerPadded e shape dtype c).length % 65536 / 256]
    else swap_two_bytes
      [(headerPadded e shape dtype c).length % 65536 / 256,
       (headerPadded e shape dtype c).length % 65536 % 256]
  else
    if e then
      [(headerPadded e shape dtype c).length % 4294967296 % 256,
       (headerPadded e shape dtype c).length % 4294967296 / 256 % 256,
       (headerPadded e shape dtype c).length % 4294967296 / 65536 % 256,
       (headerPadded e shape dtype c).length % 4294967296 / 16777216 % 256]
    else swap_four_bytes
      [(headerPadded e shape dtype c).length % 4294967296 / 16777216 % 256,
       (headerPadded e shape dtype c).length % 4294967296 / 65536 % 256,
       (headerPadded e shape dtype c).length % 4294967296 / 256 % 256,
       (headerPadded e shape dtype c).length % 4294967296 % 256]

/-- Everything write_npy emits before the payload: magic, version
bytes, length field, padded header (lines 748, 788, 791-807). -/
def write_npy_preamble (e : Bool) (shape : List Nat) (dtype : DType)
    (c : Bool) : List Nat :=
  magicBytes ++ [npyMajor e shape dtype c, 0] ++ npyLenBytes e shape dtype c ++
    headerPadded e shape dtype c

/-- write_npy, lines 736-815: the preamble followed by
`n_elements * size_of_DType(dtype)` payload bytes (uint64 product,
lines 739-742 and 810-811).  A payload buffer shorter than that is UB
in the source (it reads past the buffer); `take` models the written
prefix. -/
def write_npy (e : Bool) (payload : List Nat) (shape : List Nat)
    (dtype : DType) (c : Bool) : List Nat :=
  write_npy_preamble e shape dtype c ++
    payload.take (neOf shape * size_of_DType dtype % U64)

/-! ### The array container (template class NPArray, lines 52-591)

An element of type `T` is represented opaquely by its value of type
`α`; for persistence theorems `α := List Nat` is used, an element being
its `sizeof(T)`-byte object representation, so that element equality is
bit-exactness.  The private members of the class (line 123-127) become
the fields. -/

structure NPArr (α : Type) where
  data_ : List α
  shape_ : List Nat
  c_continuous_ : Bool
  dimensions_ : Nat
deriving DecidableEq, Repr

/-- The default constructor `NPArray() {}`, line 196: both vectors are
empty while `c_continuous_` and `dimensions_` keep indeterminate
values, supplied here as parameters. -/
def NPArr.mkDefault (α : Type) (c : Bool) (d : Nat) : NPArr α :=
  ⟨[], [], c, d⟩

/-- The shape constructor, lines 198-217: requires a nonempty shape
vector, computes `ne` in size_t arithmetic and value-initializes that
many elements (`dflt` is the value-initialized element). -/
def NPArr.mkShape (dflt : α) (init_shape : List Nat) (c : Bool) :
    Except NpErr (NPArr α) :=
  if 0 < init_shape.length then
    .ok ⟨List.replicate (neOf init_shape) dflt, init_shape, c,
      init_shape.length⟩
  else .error .shapeError

/-- The data constructor, lines 219-244: additionally requires the
element count to match the supplied data. -/
def NPArr.mkData (data : List α) (init_shape : List Nat) (c : Bool) :
    Except NpErr (NPArr α) :=
  if 0 < init_shape.length then
    if neOf init_shape ≠ data.length then .error .shapeError
    else .ok ⟨data, init_shape, c, init_shape.length⟩
  else .error .shapeError

/-- check_indices, lines 501-534: the arity check against
`dimensions_` runs first, then the loop `for i in [0, dimensions_)`
compares `indices[i] >= shape_[i]`, throwing at the first violation.
`i` is the loop counter, `n` the remaining iterations. -/
def checkLoop (shape indices : List Nat) : Nat → Nat → Except NpErr Unit
  | _, 0 => .ok ()
  | i, n + 1 =>
    if nth indices i ≥ nth shape i then .error .indexOutOfRange
    else checkLoop shape indices (i + 1) n

/-- check_indices, lines 501-516. -/
def NPArr.check_indices (arr : NPArr α) (indices : List Nat) :
    Except NpErr Unit :=
  if indices.length ≠ arr.dimensions_ then .error .improperIndices
  else checkLoop arr.shape_ indices 0 arr.dimensions_

/-- The loop of c_continuous_index, lines 536-547: `i` counts down
from `dimensions_ - 1` to 1; each step does `coeff *= shape_[i];
indx += coeff * indices[i-1]` in size_t arithmetic. -/
def cIdxLoop (shape indices : List Nat) : Nat → Nat → Nat → Nat
  | 0, _, indx => indx
  | i + 1, coeff, indx =>
    let coeff' := coeff * nth shape (i + 1) % U64
    let indx' := (indx + coeff' * nth indices i) % U64
    cIdxLoop shape indices i coeff' indx'

/-- c_continuous_index, lines 536-547 (row-major linearization). -/
def c_continuous_index (dims : Nat) (shape indices : List Nat) : Nat :=
  cIdxLoop shape indices (dims - 1) 1 (nth indices (dims - 1))

/-- The loop of fortran_continuous_index, lines 549-561: `i` counts up
from 0 to `dimensions_ - 2`; each step does `coeff *= shape_[i];
indx += coeff * indices[i+1]`.  `n` is the remaining iteration count,
starting at `dimensions_ - 1`. -/
def fIdxLoop (shape indices : List Nat) : Nat → Nat → Nat → Nat → Nat
  | _, _, indx, 0 => indx
  | i, coeff, indx, n + 1 =>
    let coeff' := coeff * nth shape i % U64
    let indx' := (indx + coeff' * nth indices (i + 1)) % U64
    fIdxLoop shape indices (i + 1) coeff' indx' n

/-- fortran_continuous_index, lines 549-561 (column-major). -/
def fortran_continuous_index (dims : Nat) (shape indices : List Nat) : Nat :=
  fIdxLoop shape indices 0 1 (nth indices 0) (dims - 1)

/-- linear_index, lines 391-402: validate, then dispatch on the layout
flag. -/
def NPArr.linear_index (arr : NPArr α) (indices : List Nat) :
    Except NpErr Nat :=
  match arr.check_indices indices with
  | .error er => .error er
  | .ok _ =>
    .ok (if arr.c_continuous_
      then c_continuous_index arr.dimensions_ arr.shape_ indices
      else fortran_continuous_index arr.dimensions_ arr.shape_ indices)

/-- operator() with an index vector, lines 309-322: validate, compute
the linear index, return `data_[indx]` (unchecked vector access;
`dflt` stands for the indeterminate result of an out-of-range read,
which cannot happen behind the checks). -/
def NPArr.opParen (dflt : α) (arr : NPArr α) (indices : List Nat) :
    Except NpErr α :=
  match arr.check_indices indices with
  | .error er => .error er
  | .ok _ =>
    .ok (arr.data_.getD
      (if arr.c_continuous_
        then c_continuous_index arr.dimensions_ arr.shape_ indices
        else fortran_continuous_index arr.dimensions_ arr.shape_ indices)
      dflt)

/-- operator[], lines 375-383: `return data_[i];` with no validation of
any kind; an out-of-range `i` is an unchecked UB read in the source,
modelled as `dflt`.  The result type matches `opParen` to make the
absence of every error path a statement rather than a typing
accident. -/
def NPArr.opBracket (dflt : α) (arr : NPArr α) (i : Nat) : Except NpErr α :=
  .ok (arr.data_.getD i dflt)

/-- reshape, lines 456-479: requires a nonempty new shape whose size_t
element product equals the current data size; only `shape_` and
`dimensions_` change. -/
def NPArr.reshape (arr : NPArr α) (new_shape : List Nat) :
    Except NpErr (NPArr α) :=
  if new_shape.length < 1 then .error .shapeError
  else if neOf new_shape = arr.data_.length then
    .ok { arr with shape_ := new_shape, dimensions_ := new_shape.length }
  else .error .shapeError

/-- std::vector::resize: keep the first `n` elements, value-initialize
any beyond the old size. -/
def listResize (l : List α) (n : Nat) (dflt : α) : List α :=
  l.take n ++ List.replicate (n - l.length) dflt

/-- reallocate, lines 481-499: requires a nonempty shape; resizes the
data vector to the size_t element product. -/
def NPArr.reallocate (dflt : α) (arr : NPArr α) (new_shape : List Nat) :
    Except NpErr (NPArr α) :=
  if new_shape.length < 1 then .error .shapeError
  else
    .ok { arr with
          shape_ := new_shape
          dimensions_ := new_shape.length
          data_ := listResize arr.data_ (neOf new_shape) dflt }

/-- Regroups a flat byte buffer into `n` elements of `w` bytes each:
the effect of `{(T*)ptr, (T*)ptr + ne}` at line 296 when an element is
its object representation. -/
def chunksOf (w : Nat) : Nat → List Nat → List (List Nat)
  | 0, _ => []
  | n + 1, l => l.take w :: chunksOf w n (l.drop w)

/-- NPArray::save, lines 424-449, for elements that are their raw
`sizeof(T)`-byte representations.  The typeid dispatch of lines
426-444 fixes `dtype` from `T`; here it is the `dtype` parameter, and
`data_.data()` reinterpreted as bytes is the flattened data. -/
def NPArr.save (e : Bool) (dtype : DType) (arr : NPArr (List Nat)) :
    List Nat :=
  write_npy e arr.data_.flatten arr.shape_ dtype arr.c_continuous_

/-- NPArray::load, lines 247-307: call load_npy, check the dtype
against the one the template parameter dictates, check rank >= 1,
take `ne` elements from the returned buffer, build the array through
the data constructor (c_continuous defaulting to true, line 59) and
then overwrite `c_continuous_` with the loaded flag (line 300). -/
def NPArr.load (e : Bool) (expected_dtype : DType) (file : List Nat) :
    Except NpErr (NPArr (List Nat)) :=
  match load_npy e file with
  | .error er => .error er
  | .ok (data, shape, dtype, cContig) =>
    if expected_dtype ≠ dtype then .error .dtypeMismatch
    else if shape.length < 1 then .error .shapeError
    else
      match NPArr.mkData
          (chunksOf (size_of_DType expected_dtype) (neOf shape) data)
          shape true with
      | .error er => .error er
      | .ok arr => .ok { arr with c_continuous_ := cContig }

/-! ### Auxiliary definitions used only to state and prove theorems -/

/-- Pure dispatcher over the fixed-width swap routines (width 1 and
unsupported widths are the identity); mirrors `swapElem` on its
non-error widths. -/
def swapFixed (w : Nat) (l : List Nat) : List Nat :=
  if w = 2 then swap_two_bytes l
  else if w = 4 then swap_four_bytes l
  else if w = 8 then swap_eight_bytes l
  else if w = 16 then swap_sixteen_bytes l
  else l

/-- Chunk-by-chunk description of what a successful `swap_bytes` run
computes: each of the `n` leading `w`-byte chunks swapped in place. -/
def swapAll (w : Nat) : Nat → List Nat → List Nat
  | 0, data => data
  | n + 1, data => swapFixed w (data.take w) ++ swapAll w n (data.drop w)

/-- Following the specification text for row-major linearization:
start with `idx = indices[R-1]`; for axis `i` from `R-1` down to 1,
`coeff *= shape[i]; idx += coeff * indices[i-1]` — the same
accumulation as `cIdxLoop` but in exact arithmetic. -/
def specRowLoop (shape indices : List Nat) : Nat → Nat → Nat → Nat
  | 0, _, indx => indx
  | i + 1, coeff, indx =>
    let coeff' := coeff * nth shape (i + 1)
    let indx' := indx + coeff' * nth indices i
    specRowLoop shape indices i coeff' indx'

/-- Row-major flat index as the specification states it. -/
def spec_row_major (dims : Nat) (shape indices : List Nat) : Nat :=
  specRowLoop shape indices (dims - 1) 1 (nth indices (dims - 1))

/-- Following the specification text for column-major linearization:
start with `idx = indices[0]`; for axis `i` from 0 to `R-2`,
`coeff *= shape[i]; idx += coeff * indices[i+1]` — the same
accumulation as `fIdxLoop` but in exact arithmetic. -/
def specColLoop (shape indices : List Nat) : Nat → Nat → Nat → Nat → Nat
  | _, _, indx, 0 => indx
  | i, coeff, indx, n + 1 =>
    let coeff' := coeff * nth shape i
    let indx' := indx + coeff' * nth indices (i + 1)
    specColLoop shape indices (i + 1) coeff' indx' n

/-- Column-major flat index as the specification states it. -/
def spec_col_major (dims : Nat) (shape indices : List Nat) : Nat :=
  specColLoop shape indices 0 1 (nth indices 0) (dims - 1)

/-- Value of a string of decimal digit bytes. -/
def digitsVal (l : List Nat) : Nat := l.foldl (fun a c => 10 * a + (c - 48)) 0

/-- The header text from the open brace through the descr token and
its closing quote-comma-space. -/
def descrPart (e : Bool) (dtype : DType) : List Nat :=
  descrOpen ++ (if e then [60] else [62]) ++ DType_to_descr dtype ++
    quoteCommaSp

/-- The fortran_order value text. -/
def fstrPart (c : Bool) : List Nat := if c then falseCommaSp else trueCommaSp

/-- The header text up to and including the opening parenthesis of the
shape list. -/
def headerPre (e : Bool) (dtype : DType) (c : Bool) : List Nat :=
  descrPart e dtype ++ fortranKey ++ fstrPart c ++ shapeOpen

/-- The comma-separated decimal shape extents. -/
def shapeStr (shape : List Nat) : List Nat := shapeFold shape []

/-- The well-formedness invariant of an array state: rank at least 1,
`dimensions_` in sync with the shape vector, and the data size equal
to the element count the source computes from the shape. -/
def NPArr.WF (arr : NPArr α) : Prop :=
  1 ≤ arr.shape_.length ∧ arr.dimensions_ = arr.shape_.length ∧
    arr.data_.length = neOf arr.shape_

/-! ## Supporting lemmas: byte swapping -/

theorem swap_two_bytes_append : ∀ (a b : List Nat), a.length = 2 →
    swap_two_bytes (a ++ b) = a.reverse ++ b
  | [_, _], _, _ => rfl

theorem swap_four_bytes_append : ∀ (a b : List Nat), a.length = 4 →
    swap_four_bytes (a ++ b) = a.reverse ++ b
  | [_, _, _, _], _, _ => rfl

theorem swap_eight_bytes_append : ∀ (a b : List Nat), a.length = 8 →
    swap_eight_bytes (a ++ b) = a.reverse ++ b
  | [_, _, _, _, _, _, _, _], _, _ => rfl

theorem swap_sixteen_bytes_append : ∀ (a b : List Nat), a.length = 16 →
    swap_sixteen_bytes (a ++ b) = a.reverse ++ b
  | [_, _, _, _, _, _, _, _, _, _, _, _, _, _, _, _], _, _ => rfl

/-- The widths with a dedicated swap routine. -/
def SwapW (w : Nat) : Prop := w = 2 ∨ w = 4 ∨ w = 8 ∨ w = 16

theorem swapFixed_append (w : Nat) (hw : SwapW w) (a b : List Nat)
    (h : a.length = w) : swapFixed w (a ++ b) = a.reverse ++ b := by
  rcases hw with rfl | rfl | rfl | rfl
  · simpa [swapFixed] using swap_two_bytes_append a b h
  · simpa [swapFixed] using swap_four_bytes_append a b h
  · simpa [swapFixed] using swap_eight_bytes_append a b h
  · simpa [swapFixed] using swap_sixteen_bytes_append a b h

theorem swapFixed_eq_reverse (w : Nat) (hw : SwapW w) (a : List Nat)
    (h : a.length = w) : swapFixed w a = a.reverse := by
  simpa using swapFixed_append w hw a [] h

theorem swapElem_eq (w : Nat) (hw : SwapW w) (data : List Nat) :
    swapElem w data = .ok (swapFixed w data) := by
  rcases hw with rfl | rfl | rfl | rfl <;> rfl

theorem swapAll_length (w : Nat) (hw : SwapW w) :
    ∀ (n : Nat) (data : List Nat), data.length = n * w →
      (swapAll w n data).length = data.length
  | 0, _, _ => rfl
  | n + 1, data, h => by
    have hwpos : 0 < w := by rcases hw with rfl | rfl | rfl | rfl <;> omega
    have hle : w ≤ data.length := by
      rw [h, Nat.succ_mul]; omega
    have htk : (data.take w).length = w := by
      simp [List.length_take]; omega
    have hdl : (data.drop w).length = n * w := by
      rw [List.length_drop, h, Nat.succ_mul]; omega
    simp only [swapAll, List.length_append,
      swapFixed_eq_reverse w hw _ htk, List.length_reverse, htk,
      swapAll_length w hw n _ hdl, List.length_drop, h]
    rw [Nat.succ_mul]; omega

theorem swapAll_involutive (w : Nat) (hw : SwapW w) :
    ∀ (n : Nat) (data : List Nat), data.length = n * w →
      swapAll w n (swapAll w n data) = data
  | 0, _, _ => rfl
  | n + 1, data, h => by
    have hle : w ≤ data.length := by rw [h, Nat.succ_mul]; omega
    have htk : (data.take w).length = w := by simp [List.length_take]; omega
    have hdl : (data.drop w).length = n * w := by
      rw [List.length_drop, h, Nat.succ_mul]; omega
    have hrl : (data.take w).reverse.length = w := by
      rw [List.length_reverse, htk]
    have hR : (swapAll w n (data.drop w)).length = n * w := by
      rw [swapAll_length w hw n _ hdl, hdl]
    show swapAll w (n + 1)
      (swapFixed w (data.take w) ++ swapAll w n (data.drop w)) = data
    rw [swapFixed_eq_reverse w hw _ htk]
    show swapFixed w (((data.take w).reverse ++ swapAll w n (data.drop w)).take w)
        ++ swapAll w n
          (((data.take w).reverse ++ swapAll w n (data.drop w)).drop w) = data
    rw [List.take_left' hrl, List.drop_left' hrl]
    rw [swapFixed_eq_reverse w hw _ hrl, List.reverse_reverse]
    rw [swapAll_involutive w hw n _ hdl]
    exact List.take_append_drop w data

theorem swap_bytes_eq (w : Nat) (hw : SwapW w) :
    ∀ (n : Nat) (data : List Nat), data.length = n * w →
      swap_bytes data n w = .ok (swapAll w n data)
  | 0, _, _ => rfl
  | n + 1, data, h => by
    have hle : w ≤ data.length := by rw [h, Nat.succ_mul]; omega
    have htk : (data.take w).length = w := by simp [List.length_take]; omega
    have hdl : (data.drop w).length = n * w := by
      rw [List.length_drop, h, Nat.succ_mul]; omega
    have hrl : (data.take w).reverse.length = w := by
      rw [List.length_reverse, htk]
    have hd : swapFixed w data = (data.take w).reverse ++ data.drop w := by
      conv_lhs => rw [← List.take_append_drop w data]
      exact swapFixed_append w hw _ _ htk
    show (match swapElem w data with
      | Except.error er => Except.error er
      | Except.ok d' =>
        match swap_bytes (d'.drop w) n w with
        | Except.error er => Except.error er
        | Except.ok rest => Except.ok (d'.take w ++ rest)) = _
    rw [swapElem_eq w hw, hd]
    simp only [List.drop_left' hrl, List.take_left' hrl,
      swap_bytes_eq w hw n (data.drop w) hdl]
    show _ = Except.ok (swapFixed w (data.take w) ++ swapAll w n (data.drop w))
    rw [swapFixed_eq_reverse w hw _ htk]

/-! ## Claim C8 -/

/-- C8: each fixed-width swap routine reverses its full byte span
(byte `i` exchanged with byte `w-1-i`, i.e. the `w`-byte pattern is
reversed), applying any of them twice to a `w`-byte pattern is the
identity, and running `swap_bytes` twice over a buffer of `n` elements
of any supported width `w` ∈ {2,4,8,16} returns the original buffer. -/
theorem C8_swap_reversal_involution :
    (∀ a : List Nat, a.length = 2 → swap_two_bytes a = a.reverse) ∧
    (∀ a : List Nat, a.length = 4 → swap_four_bytes a = a.reverse) ∧
    (∀ a : List Nat, a.length = 8 → swap_eight_bytes a = a.reverse) ∧
    (∀ a : List Nat, a.length = 16 → swap_sixteen_bytes a = a.reverse) ∧
    (∀ a : List Nat, a.length = 2 → swap_two_bytes (swap_two_bytes a) = a) ∧
    (∀ a : List Nat, a.length = 4 → swap_four_bytes (swap_four_bytes a) = a) ∧
    (∀ a : List Nat, a.length = 8 → swap_eight_bytes (swap_eight_bytes a) = a) ∧
    (∀ a : List Nat, a.length = 16 →
      swap_sixteen_bytes (swap_sixteen_bytes a) = a) ∧
    (∀ (w n : Nat) (data : List Nat), SwapW w → data.length = n * w →
      (swap_bytes data n w).bind (fun d => swap_bytes d n w) =
        Except.ok data) := by
  have h2 : ∀ a : List Nat, a.length = 2 → swap_two_bytes a = a.reverse :=
    fun a h => by simpa using swap_two_bytes_append a [] h
  have h4 : ∀ a : List Nat, a.length = 4 → swap_four_bytes a = a.reverse :=
    fun a h => by simpa using swap_four_bytes_append a [] h
  have h8 : ∀ a : List Nat, a.length = 8 → swap_eight_bytes a = a.reverse :=
    fun a h => by simpa using swap_eight_bytes_append a [] h
  have h16 : ∀ a : List Nat, a.length = 16 →
      swap_sixteen_bytes a = a.reverse :=
    fun a h => by simpa using swap_sixteen_bytes_append a [] h
  refine ⟨h2, h4, h8, h16, ?_, ?_, ?_, ?_, ?_⟩
  · intro a h
    rw [h2 a h, h2 a.reverse (by simp [h]), List.reverse_reverse]
  · intro a h
    rw [h4 a h, h4 a.reverse (by simp [h]), List.reverse_reverse]
  · intro a h
    rw [h8 a h, h8 a.reverse (by simp [h]), List.reverse_reverse]
  · intro a h
    rw [h16 a h, h16 a.reverse (by simp [h]), List.reverse_reverse]
  · intro w n data hw h
    have hlen : (swapAll w n data).length = n * w := by
      rw [swapAll_length w hw n data h, h]
    rw [swap_bytes_eq w hw n data h]
    show swap_bytes (swapAll w n data) n w = Except.ok data
    rw [swap_bytes_eq w hw n _ hlen, swapAll_involutive w hw n data h]

/-- Witness for C8 at width 8, two elements. -/
theorem C8_witness :
    (swap_bytes [1, 2, 3, 4, 5, 6, 7, 8, 9, 10, 11, 12, 13, 14, 15, 16] 2 8).bind
        (fun d => swap_bytes d 2 8) =
      Except.ok [1, 2, 3, 4, 5, 6, 7, 8, 9, 10, 11, 12, 13, 14, 15, 16] :=
  C8_swap_reversal_involution.2.2.2.2.2.2.2.2 8 2 _ (Or.inr (Or.inr (Or.inl rfl)))
    (by decide)

/-! ## Claim C9 -/

/-- C9: the flat accessor operator[] performs no validation at all:
for every array and every flat index, in-range or not, it returns a
value and never an error — in contrast with tuple indexing, which
rejects an out-of-range tuple. -/
theorem C9_opBracket_unchecked :
    (∀ (α : Type) (dflt : α) (arr : NPArr α) (i : Nat),
      NPArr.opBracket dflt arr i = Except.ok (arr.data_.getD i dflt)) ∧
    (∀ (α : Type) (dflt : α) (arr : NPArr α) (i : Nat) (er : NpErr),
      NPArr.opBracket dflt arr i ≠ Except.error er) ∧
    (NPArr.opBracket ([] : List Nat)
        ⟨[[0], [1], [2], [3], [4], [5]], [2, 3], true, 2⟩ 100 =
      Except.ok []) ∧
    (NPArr.opParen ([] : List Nat)
        ⟨[[0], [1], [2], [3], [4], [5]], [2, 3], true, 2⟩ [100, 0] =
      Except.error NpErr.indexOutOfRange) := by
  refine ⟨fun _ _ _ _ => rfl, fun α dflt arr i er h => ?_, by decide, by decide⟩
  exact Except.noConfusion h

/-! ## Supporting lemmas: index validation -/

theorem checkLoop_ok_iff (shape ind : List Nat) :
    ∀ (n i : Nat), checkLoop shape ind i n = .ok () ↔
      ∀ k, k < n → nth ind (i + k) < nth shape (i + k)
  | 0, i => by
    constructor
    · intro _ k hk; omega
    · intro _; rfl
  | n + 1, i => by
    by_cases hv : nth ind i ≥ nth shape i
    · have hred : checkLoop shape ind i (n + 1) = .error .indexOutOfRange := by
        show (if nth ind i ≥ nth shape i then _ else _) = _
        rw [if_pos hv]
      rw [hred]
      constructor
      · intro h; exact Except.noConfusion h
      · intro h
        have h0 := h 0 (Nat.succ_pos n)
        simp only [Nat.add_zero] at h0
        omega
    · have hred : checkLoop shape ind i (n + 1) = checkLoop shape ind (i + 1) n := by
        show (if nth ind i ≥ nth shape i then _ else _) = _
        rw [if_neg hv]
      rw [hred, checkLoop_ok_iff shape ind n (i + 1)]
      constructor
      · intro h k hk
        match k, hk with
        | 0, _ => simp only [Nat.add_zero]; omega
        | k + 1, hk =>
          have := h k (by omega)
          have harith : i + 1 + k = i + (k + 1) := by omega
          rw [harith] at this
          exact this
      · intro h k hk
        have := h (k + 1) (by omega)
        have harith : i + 1 + k = i + (k + 1) := by omega
        rw [harith]
        exact this

theorem checkLoop_err (shape ind : List Nat) :
    ∀ (n i : Nat), checkLoop shape ind i n ≠ .ok () →
      checkLoop shape ind i n = .error .indexOutOfRange
  | 0, i => fun h => absurd rfl h
  | n + 1, i => by
    by_cases hv : nth ind i ≥ nth shape i
    · intro _
      show (if nth ind i ≥ nth shape i then _ else _) = _
      rw [if_pos hv]
    · have hred : checkLoop shape ind i (n + 1) = checkLoop shape ind (i + 1) n := by
        show (if nth ind i ≥ nth shape i then _ else _) = _
        rw [if_neg hv]
      rw [hred]
      exact checkLoop_err shape ind n (i + 1)

theorem check_indices_ok (arr : NPArr α) (ind : List Nat)
    (hn : ind.length = arr.dimensions_)
    (h : ∀ k, k < arr.dimensions_ → nth ind k < nth arr.shape_ k) :
    arr.check_indices ind = .ok () := by
  unfold NPArr.check_indices
  rw [if_neg (by omega)]
  rw [checkLoop_ok_iff]
  intro k hk
  simpa using h k hk

theorem check_indices_oob (arr : NPArr α) (ind : List Nat)
    (hn : ind.length = arr.dimensions_)
    (h : ∃ k, k < arr.dimensions_ ∧ nth arr.shape_ k ≤ nth ind k) :
    arr.check_indices ind = .error .indexOutOfRange := by
  unfold NPArr.check_indices
  rw [if_neg (by omega)]
  apply checkLoop_err
  intro hok
  rw [checkLoop_ok_iff] at hok
  obtain ⟨k, hk, hviol⟩ := h
  have := hok k hk
  simp only [Nat.zero_add] at this
  omega

/-! ## Claim C4 -/

/-- C4: for every array whose `dimensions_` member is in sync with its
shape vector and every supplied index tuple, operator() and
linear_index fail with the improper-index error whenever the index
count differs from the rank; they fail with the out-of-range error
whenever the count matches but some index reaches its extent; and they
succeed on every valid tuple, operator() returning the element at the
computed flat index.  The checks depend only on the shape and rank, so
they run before the address computation for every array contents.
Concretely, on a shape [2,3] array, the tuple (2,0) and a 1-tuple both
fail, while (1,2) succeeds. -/
theorem C4_index_validation (arr : NPArr α) (dflt : α) (ind : List Nat)
    (hwf : arr.dimensions_ = arr.shape_.length) :
    (ind.length ≠ arr.dimensions_ →
      arr.opParen dflt ind = Except.error NpErr.improperIndices ∧
      arr.linear_index ind = Except.error NpErr.improperIndices) ∧
    (ind.length = arr.dimensions_ →
      (∃ k, k < arr.dimensions_ ∧ nth arr.shape_ k ≤ nth ind k) →
      arr.opParen dflt ind = Except.error NpErr.indexOutOfRange ∧
      arr.linear_index ind = Except.error NpErr.indexOutOfRange) ∧
    (ind.length = arr.dimensions_ →
      (∀ k, k < arr.dimensions_ → nth ind k < nth arr.shape_ k) →
      arr.linear_index ind = Except.ok
        (if arr.c_continuous_
          then c_continuous_index arr.dimensions_ arr.shape_ ind
          else fortran_continuous_index arr.dimensions_ arr.shape_ ind) ∧
      arr.opParen dflt ind = Except.ok (arr.data_.getD
        (if arr.c_continuous_
          then c_continuous_index arr.dimensions_ arr.shape_ ind
          else fortran_continuous_index arr.dimensions_ arr.shape_ ind)
        dflt)) ∧
    ((⟨[[0], [1], [2], [3], [4], [5]], [2, 3], true, 2⟩ :
        NPArr (List Nat)).opParen [] [2, 0] =
      Except.error NpErr.indexOutOfRange ∧
     (⟨[[0], [1], [2], [3], [4], [5]], [2, 3], true, 2⟩ :
        NPArr (List Nat)).opParen [] [1] =
      Except.error NpErr.improperIndices ∧
     (⟨[[0], [1], [2], [3], [4], [5]], [2, 3], true, 2⟩ :
        NPArr (List Nat)).opParen [] [1, 2] = Except.ok [5]) := by
  refine ⟨?_, ?_, ?_, by decide, by decide, by decide⟩
  · intro hne
    have hc : arr.check_indices ind = .error .improperIndices := by
      unfold NPArr.check_indices
      rw [if_pos hne]
    constructor
    · unfold NPArr.opParen; rw [hc]
    · unfold NPArr.linear_index; rw [hc]
  · intro hn hviol
    have hc := check_indices_oob arr ind hn hviol
    constructor
    · unfold NPArr.opParen; rw [hc]
    · unfold NPArr.linear_index; rw [hc]
  · intro hn hok
    have hc := check_indices_ok arr ind hn hok
    constructor
    · unfold NPArr.linear_index; rw [hc]
    · unfold NPArr.opParen; rw [hc]

/-- Witness for C4 on the shape [2,3] example array. -/
theorem C4_witness :
    (⟨[[0], [1], [2], [3], [4], [5]], [2, 3], true, 2⟩ :
      NPArr (List Nat)).linear_index [1, 2] = Except.ok 5 := by
  have h := C4_index_validation
    (⟨[[0], [1], [2], [3], [4], [5]], [2, 3], true, 2⟩ : NPArr (List Nat))
    [] [1, 2] (by decide)
  have h2 := (h.2.2.1 (by decide) (by decide)).1
  simpa using h2

/-! ## Claim C5 -/

theorem mkData_WF (data : List α) (sh : List Nat) (c : Bool)
    (arr : NPArr α) (h : NPArr.mkData data sh c = .ok arr) : arr.WF := by
  unfold NPArr.mkData at h
  by_cases h1 : 0 < sh.length
  · rw [if_pos h1] at h
    by_cases h2 : neOf sh ≠ data.length
    · rw [if_pos h2] at h
      exact Except.noConfusion h
    · rw [if_neg h2] at h
      injection h with h3
      subst h3
      refine ⟨h1, rfl, ?_⟩
      show data.length = neOf sh
      omega
  · rw [if_neg h1] at h
    exact Except.noConfusion h

/-- C5 counterexample: the claim quantifies over every publicly
constructible array state, but the public default constructor
`NPArray()` produces a state whose observable shape has rank 0 and
whose element count (0) differs from the product of its (empty) shape
(1), so the claim fails on that state: rank-0 is observable. -/
theorem C5_counterexample :
    (NPArr.mkDefault (List Nat) true 0).shape_.length = 0 ∧
    (NPArr.mkDefault (List Nat) true 0).data_.length ≠
      (NPArr.mkDefault (List Nat) true 0).shape_.prod := by
  constructor
  · rfl
  · intro h
    simp [NPArr.mkDefault] at h

/-- C5 (amended): every array produced by the shape constructor, the
data constructor, or load, and every result of reshape or reallocate,
satisfies the invariants rank >= 1, `dimensions_` equal to the rank,
and element count equal to the size_t product of the shape; the
default constructor is the one public path that violates them. -/
theorem C5_invariants (dflt : α) :
    (∀ (sh : List Nat) (c : Bool) (arr : NPArr α),
      NPArr.mkShape dflt sh c = .ok arr → arr.WF) ∧
    (∀ (data : List α) (sh : List Nat) (c : Bool) (arr : NPArr α),
      NPArr.mkData data sh c = .ok arr → arr.WF) ∧
    (∀ (e : Bool) (dt : DType) (file : List Nat) (arr : NPArr (List Nat)),
      NPArr.load e dt file = .ok arr → arr.WF) ∧
    (∀ (arr arr' : NPArr α) (ns : List Nat),
      arr.reshape ns = .ok arr' → arr'.WF) ∧
    (∀ (arr arr' : NPArr α) (ns : List Nat),
      arr.reallocate dflt ns = .ok arr' → arr'.WF) := by
  refine ⟨?_, fun data sh c arr h => mkData_WF data sh c arr h, ?_, ?_, ?_⟩
  · intro sh c arr h
    unfold NPArr.mkShape at h
    by_cases h1 : 0 < sh.length
    · rw [if_pos h1] at h
      injection h with h3
      subst h3
      exact ⟨h1, rfl, by simp⟩
    · rw [if_neg h1] at h
      exact Except.noConfusion h
  · intro e dt file arr h
    unfold NPArr.load at h
    split at h
    · exact Except.noConfusion h
    · split at h
      · exact Except.noConfusion h
      · split at h
        · exact Except.noConfusion h
        · split at h
          · exact Except.noConfusion h
          · rename_i data shape dtype cc hdt hrank a hmk
            injection h with h3
            subst h3
            obtain ⟨w1, w2, w3⟩ := mkData_WF _ _ _ _ hmk
            exact ⟨w1, w2, w3⟩
  · intro arr arr' ns h
    unfold NPArr.reshape at h
    by_cases h1 : ns.length < 1
    · rw [if_pos h1] at h; exact Except.noConfusion h
    · rw [if_neg h1] at h
      by_cases h2 : neOf ns = arr.data_.length
      · rw [if_pos h2] at h
        injection h with h3
        subst h3
        refine ⟨?_, rfl, ?_⟩
        · show 1 ≤ ns.length
          omega
        · show arr.data_.length = neOf ns
          omega
      · rw [if_neg h2] at h
        exact Except.noConfusion h
  · intro arr arr' ns h
    unfold NPArr.reallocate at h
    by_cases h1 : ns.length < 1
    · rw [if_pos h1] at h; exact Except.noConfusion h
    · rw [if_neg h1] at h
      injection h with h3
      subst h3
      refine ⟨?_, rfl, ?_⟩
      · show 1 ≤ ns.length
        omega
      · show (listResize arr.data_ (neOf ns) dflt).length = neOf ns
        simp [listResize, List.length_take]
        omega

/-- Witness for C5: the amended invariants on concrete runs of the
constructors and mutators. -/
theorem C5_witness :
    ∃ arr : NPArr (List Nat),
      NPArr.mkData [[1], [2], [3], [4], [5], [6]] [2, 3] true = .ok arr ∧
        arr.WF := by
  have h := (C5_invariants ([] : List Nat)).2.1
    [[1], [2], [3], [4], [5], [6]] [2, 3] true
    ⟨[[1], [2], [3], [4], [5], [6]], [2, 3], true, 2⟩ (by decide)
  exact ⟨_, by decide, h⟩

/-! ## Claim C6 -/

/-- C6 counterexample: reshape does NOT succeed exactly when the
product of the new shape equals the current element count: the empty
new-shape vector has product 1, equal to the element count of a
one-element array, yet reshape fails with the shape error. -/
theorem C6_counterexample :
    ([] : List Nat).prod =
      (⟨[[7]], [1], true, 1⟩ : NPArr (List Nat)).data_.length ∧
    (⟨[[7]], [1], true, 1⟩ : NPArr (List Nat)).reshape [] =
      Except.error NpErr.shapeError := by
  constructor
  · rfl
  · rfl

/-- C6 (amended): reshape succeeds exactly when the new shape vector
is nonempty AND its size_t element product equals the current element
count; on success only the shape metadata (`shape_`, `dimensions_`)
changes and the flat buffer and layout flag are untouched; on failure
(count mismatch, or empty shape vector even with matching product) it
fails with the shape error, leaving the array unchanged.  Concretely a
6-element [2,3] array reshapes to [3,2] preserving the flat data and
fails to [4,2]. -/
theorem C6_reshape (arr : NPArr α) (ns : List Nat) :
    (0 < ns.length → neOf ns = arr.data_.length →
      arr.reshape ns =
        Except.ok ⟨arr.data_, ns, arr.c_continuous_, ns.length⟩) ∧
    (ns.length = 0 ∨ neOf ns ≠ arr.data_.length →
      arr.reshape ns = Except.error NpErr.shapeError) ∧
    (∀ arr' : NPArr α, arr.reshape ns = .ok arr' →
      arr'.data_ = arr.data_ ∧ arr'.c_continuous_ = arr.c_continuous_ ∧
      arr'.shape_ = ns ∧ 0 < ns.length ∧ neOf ns = arr.data_.length) ∧
    ((⟨[[0], [1], [2], [3], [4], [5]], [2, 3], true, 2⟩ :
        NPArr (List Nat)).reshape [3, 2] =
      Except.ok ⟨[[0], [1], [2], [3], [4], [5]], [3, 2], true, 2⟩ ∧
     (⟨[[0], [1], [2], [3], [4], [5]], [2, 3], true, 2⟩ :
        NPArr (List Nat)).reshape [4, 2] =
      Except.error NpErr.shapeError) := by
  refine ⟨?_, ?_, ?_, by decide, by decide⟩
  · intro h1 h2
    unfold NPArr.reshape
    rw [if_neg (by omega), if_pos h2]
  · intro h
    unfold NPArr.reshape
    rcases h with h | h
    · rw [if_pos (by omega)]
    · by_cases h1 : ns.length < 1
      · rw [if_pos h1]
      · rw [if_neg h1, if_neg h]
  · intro arr' h
    unfold NPArr.reshape at h
    by_cases h1 : ns.length < 1
    · rw [if_pos h1] at h; exact Except.noConfusion h
    · rw [if_neg h1] at h
      by_cases h2 : neOf ns = arr.data_.length
      · rw [if_pos h2] at h
        injection h with h3
        subst h3
        exact ⟨rfl, rfl, rfl, by omega, h2⟩
      · rw [if_neg h2] at h
        exact Except.noConfusion h

/-- Witness for C6: the amended reshape contract on a concrete
6-element array. -/
theorem C6_witness :
    (⟨[[0], [1], [2], [3], [4], [5]], [2, 3], true, 2⟩ :
      NPArr (List Nat)).reshape [6] =
    Except.ok ⟨[[0], [1], [2], [3], [4], [5]], [6], true, 1⟩ := by
  have h := (C6_reshape
    (⟨[[0], [1], [2], [3], [4], [5]], [2, 3], true, 2⟩ : NPArr (List Nat))
    [6]).1 (by decide) (by decide)
  simpa using h

/-! ## Claim C7 -/

/-- C7: evaluation of the header-length decode at the failing inputs.
The bytes 0x01 0x02 stored little-endian denote 513.  On a
little-endian host the value 513 is read, but on a big-endian host the
code returns 258 — the big-endian interpretation — because its
byte-order correction `swap_bytes(ptr, 2, 1)` passes element width 1
and is a no-op (third conjunct), contradicting the source comment
that the stored little-endian value is byte-swapped.  Moreover for
major version byte 0 (or any byte that is negative as a signed char)
neither branch runs: no bytes are consumed and the length is 0,
instead of the claimed 4-byte read. -/
theorem C7_length_field_decode :
    readLenField false 1 [1, 2] = Except.ok (258, []) ∧
    readLenField true 1 [1, 2] = Except.ok (513, []) ∧
    swap_bytes [1, 2] 2 1 = Except.ok [1, 2] ∧
    readLenField true 0 [1, 2, 3, 4] = Except.ok (0, [1, 2, 3, 4]) ∧
    readLenField false 0 [1, 2, 3, 4] = Except.ok (0, [1, 2, 3, 4]) ∧
    readLenField true 2 [1, 2, 0, 0] = Except.ok (513, []) := by
  decide

/-! ## Supporting lemmas: linearization loops -/

theorem cIdxLoop_mod (shape ind : List Nat) :
    ∀ (i c₁ x₁ c₂ x₂ : Nat), c₁ ≡ c₂ [MOD U64] → x₁ ≡ x₂ [MOD U64] →
      cIdxLoop shape ind i c₁ x₁ ≡ specRowLoop shape ind i c₂ x₂ [MOD U64]
  | 0, _, _, _, _, _, hx => hx
  | i + 1, c₁, x₁, c₂, x₂, hc, hx => by
    apply cIdxLoop_mod shape ind i
    · exact (Nat.mod_modEq _ _).trans (hc.mul_right (nth shape (i + 1)))
    · exact (Nat.mod_modEq _ _).trans (hx.add
        (((Nat.mod_modEq _ _).trans
          (hc.mul_right (nth shape (i + 1)))).mul_right (nth ind i)))

theorem cIdxLoop_lt (shape ind : List Nat) :
    ∀ (i c x : Nat), 1 ≤ i → cIdxLoop shape ind i c x < U64
  | 0, _, _, h => absurd h (by omega)
  | i + 1, c, x, _ => by
    match i with
    | 0 =>
      show (x + c * nth shape 1 % U64 * nth ind 0) % U64 < U64
      exact Nat.mod_lt _ (by decide)
    | i + 1 => exact cIdxLoop_lt shape ind (i + 1) _ _ (by omega)

theorem fIdxLoop_mod (shape ind : List Nat) :
    ∀ (n i c₁ x₁ c₂ x₂ : Nat), c₁ ≡ c₂ [MOD U64] → x₁ ≡ x₂ [MOD U64] →
      fIdxLoop shape ind i c₁ x₁ n ≡ specColLoop shape ind i c₂ x₂ n [MOD U64]
  | 0, _, _, _, _, _, _, hx => hx
  | n + 1, i, c₁, x₁, c₂, x₂, hc, hx => by
    apply fIdxLoop_mod shape ind n
    · exact (Nat.mod_modEq _ _).trans (hc.mul_right (nth shape i))
    · exact (Nat.mod_modEq _ _).trans (hx.add
        (((Nat.mod_modEq _ _).trans
          (hc.mul_right (nth shape i))).mul_right (nth ind (i + 1))))

theorem fIdxLoop_lt (shape ind : List Nat) :
    ∀ (n i c x : Nat), 1 ≤ n → fIdxLoop shape ind i c x n < U64
  | 0, _, _, _, h => absurd h (by omega)
  | n + 1, i, c, x, _ => by
    match n with
    | 0 =>
      show (x + c * nth shape i % U64 * nth ind (i + 1)) % U64 < U64
      exact Nat.mod_lt _ (by decide)
    | n + 1 => exact fIdxLoop_lt shape ind (n + 1) _ _ _ (by omega)

/-! ## Claim C2 -/

/-- C2 counterexample: for shape [2,3] under ColumnMajor the index
(1,2) maps to flat index 5 (= 1 + 2*2), not 4 as the claim states. -/
theorem C2_counterexample :
    fortran_continuous_index 2 [2, 3] [1, 2] = 5 ∧
    ¬ fortran_continuous_index 2 [2, 3] [1, 2] = 4 := by
  decide

/-- C2 (amended): for every shape of rank R and index tuple, the
row-major and column-major linearizations compute exactly the
accumulation formulas the specification states (whenever the stated
formula's value fits in size_t, where the source computes modulo
2^64); in particular for shape [2,3] the index (1,2) maps to flat
index 5 under RowMajor and also to flat index 5 (= 1 + 2*2) under
ColumnMajor. -/
theorem C2_linearization (shape indices : List Nat)
    (hrow : spec_row_major shape.length shape indices < U64)
    (hcol : spec_col_major shape.length shape indices < U64) :
    (c_continuous_index shape.length shape indices =
      spec_row_major shape.length shape indices ∧
     fortran_continuous_index shape.length shape indices =
      spec_col_major shape.length shape indices) ∧
    c_continuous_index 2 [2, 3] [1, 2] = 5 ∧
    fortran_continuous_index 2 [2, 3] [1, 2] = 5 := by
  refine ⟨⟨?_, ?_⟩, by decide, by decide⟩
  · unfold c_continuous_index spec_row_major
    unfold spec_row_major at hrow
    cases hd : shape.length - 1 with
    | zero => rfl
    | succ k =>
      rw [hd] at hrow
      have hmod := cIdxLoop_mod shape indices (k + 1) 1
        (nth indices (k + 1)) 1 (nth indices (k + 1))
        Nat.ModEq.rfl Nat.ModEq.rfl
      have hlt := cIdxLoop_lt shape indices (k + 1) 1
        (nth indices (k + 1)) (by omega)
      unfold Nat.ModEq at hmod
      rw [Nat.mod_eq_of_lt hlt, Nat.mod_eq_of_lt hrow] at hmod
      exact hmod
  · unfold fortran_continuous_index spec_col_major
    unfold spec_col_major at hcol
    cases hd : shape.length - 1 with
    | zero => rfl
    | succ k =>
      rw [hd] at hcol
      have hmod := fIdxLoop_mod shape indices (k + 1) 0 1
        (nth indices 0) 1 (nth indices 0) Nat.ModEq.rfl Nat.ModEq.rfl
      have hlt := fIdxLoop_lt shape indices (k + 1) 0 1
        (nth indices 0) (by omega)
      unfold Nat.ModEq at hmod
      rw [Nat.mod_eq_of_lt hlt, Nat.mod_eq_of_lt hcol] at hmod
      exact hmod

/-- Witness for C2 on the [2,3] example. -/
theorem C2_witness :
    spec_row_major 2 [2, 3] [1, 2] < U64 ∧
    c_continuous_index 2 [2, 3] [1, 2] = spec_row_major 2 [2, 3] [1, 2] := by
  have h := C2_linearization [2, 3] [1, 2] (by decide) (by decide)
  exact ⟨by decide, by simpa using h.1.1⟩

/-! ## Supporting lemmas: decimal digits (std::to_string and std::stoi) -/

theorem natBytesAux_acc : ∀ (fuel n : Nat) (acc : List Nat),
    natBytesAux fuel n acc = natBytesAux fuel n [] ++ acc
  | 0, _, _ => rfl
  | fuel + 1, n, acc => by
    simp only [natBytesAux]
    by_cases h : n < 10
    · rw [if_pos h, if_pos h]; rfl
    · rw [if_neg h, if_neg h,
        natBytesAux_acc fuel (n / 10) ((48 + n % 10) :: acc),
        natBytesAux_acc fuel (n / 10) [48 + n % 10]]
      simp

theorem natBytesAux_digits : ∀ (fuel n : Nat) (acc : List Nat),
    (∀ c ∈ acc, 48 ≤ c ∧ c ≤ 57) →
    ∀ c ∈ natBytesAux fuel n acc, 48 ≤ c ∧ c ≤ 57
  | 0, n, acc, hacc => by
    simp only [natBytesAux]
    intro c hc
    rcases List.mem_cons.mp hc with rfl | hmem
    · have h10 : n % 10 < 10 := Nat.mod_lt n (by omega)
      omega
    · exact hacc c hmem
  | fuel + 1, n, acc, hacc => by
    simp only [natBytesAux]
    by_cases h : n < 10
    · rw [if_pos h]
      intro c hc
      rcases List.mem_cons.mp hc with rfl | hmem
      · omega
      · exact hacc c hmem
    · rw [if_neg h]
      refine natBytesAux_digits fuel (n / 10) _ ?_
      intro c hc
      rcases List.mem_cons.mp hc with rfl | hmem
      · have h10 : n % 10 < 10 := Nat.mod_lt n (by omega)
        omega
      · exact hacc c hmem

theorem natBytesAux_ne_nil : ∀ (fuel n : Nat) (acc : List Nat),
    natBytesAux fuel n acc ≠ []
  | 0, _, _ => by simp [natBytesAux]
  | fuel + 1, n, acc => by
    simp only [natBytesAux]
    by_cases h : n < 10
    · rw [if_pos h]; simp
    · rw [if_neg h]; exact natBytesAux_ne_nil fuel (n / 10) _

theorem foldl_digits (ys : List Nat) : ∀ v : Nat,
    ys.foldl (fun a c => 10 * a + (c - 48)) v =
      v * 10 ^ ys.length + digitsVal ys := by
  induction ys with
  | nil => intro v; simp [digitsVal]
  | cons c tl ih =>
    intro v
    show tl.foldl _ (10 * v + (c - 48)) = _
    rw [ih (10 * v + (c - 48))]
    have hval : digitsVal (c :: tl) = (c - 48) * 10 ^ tl.length + digitsVal tl := by
      show tl.foldl _ (10 * 0 + (c - 48)) = _
      rw [ih (10 * 0 + (c - 48))]
      ring_nf
    rw [hval, List.length_cons]
    ring

theorem digitsVal_append (xs ys : List Nat) :
    digitsVal (xs ++ ys) = digitsVal xs * 10 ^ ys.length + digitsVal ys := by
  unfold digitsVal
  rw [List.foldl_append]
  exact foldl_digits ys _

theorem natBytes_val : ∀ (fuel n : Nat), n ≤ fuel →
    digitsVal (natBytesAux fuel n []) = n
  | 0, n, h => by
    have hn : n = 0 := by omega
    subst hn
    rfl
  | fuel + 1, n, h => by
    simp only [natBytesAux]
    by_cases h10 : n < 10
    · rw [if_pos h10]
      show digitsVal [48 + n] = n
      unfold digitsVal
      simp
    · rw [if_neg h10,
        natBytesAux_acc fuel (n / 10) [48 + n % 10], digitsVal_append,
        natBytes_val fuel (n / 10) (by omega)]
      have hd : digitsVal [48 + n % 10] = n % 10 := by
        unfold digitsVal; simp
      rw [hd]
      have hp : (10 : Nat) ^ ([48 + n % 10] : List Nat).length = 10 := by
        simp
      rw [hp]
      omega

theorem digitsVal_natBytes (n : Nat) : digitsVal (natBytes n) = n :=
  natBytes_val n n (Nat.le_refl n)

theorem natBytes_digits (n : Nat) : ∀ c ∈ natBytes n, 48 ≤ c ∧ c ≤ 57 :=
  natBytesAux_digits n n [] (by simp)

theorem natBytes_ne_nil (n : Nat) : natBytes n ≠ [] :=
  natBytesAux_ne_nil n n []

theorem stoiNat_natBytes (n : Nat) (h : n ≤ INT_MAX) :
    stoiNat (natBytes n) = .ok n := by
  have hdig := natBytes_digits n
  have hne := natBytes_ne_nil n
  have hdw : (natBytes n).dropWhile (· = 32) = natBytes n := by
    cases hb : natBytes n with
    | nil => rfl
    | cons c tl =>
      have hc := hdig c (by rw [hb]; exact List.mem_cons_self c tl)
      rw [List.dropWhile_cons]
      rw [if_neg (by simp; omega)]
  have htw : (natBytes n).takeWhile isDigitB = natBytes n := by
    rw [List.takeWhile_eq_self_iff]
    intro c hc
    have := hdig c hc
    simp [isDigitB]
    omega
  have hv : (natBytes n).foldl (fun a c => 10 * a + (c - 48)) 0 = n :=
    digitsVal_natBytes n
  unfold stoiNat
  rw [hdw, htw, hv]
  rw [if_neg (by simpa [List.isEmpty_iff] using hne), if_neg (by omega)]

/-! ## Supporting lemmas: header text layout -/

theorem shapeFold_append : ∀ (shape init : List Nat),
    shapeFold shape init = init ++ shapeStr shape
  | [], init => by simp [shapeFold, shapeStr]
  | d :: tl, init => by
    show shapeFold tl (init ++ natBytes d ++ [44]) = init ++ shapeStr (d :: tl)
    rw [shapeFold_append tl (init ++ natBytes d ++ [44])]
    have h2 : shapeStr (d :: tl) = (natBytes d ++ [44]) ++ shapeStr tl := by
      show shapeFold tl (([] : List Nat) ++ natBytes d ++ [44]) = _
      rw [shapeFold_append tl (([] : List Nat) ++ natBytes d ++ [44])]
      simp
    rw [h2]
    simp [List.append_assoc]

theorem headerBytes_eq (e : Bool) (shape : List Nat) (dtype : DType)
    (c : Bool) :
    headerBytes e shape dtype c =
      headerPre e dtype c ++ shapeStr shape ++ closeDict := by
  simp only [headerBytes, headerPre, descrPart, fstrPart]
  rw [shapeFold_append]

theorem shapeStr_replicate_one : ∀ n : Nat,
    (shapeStr (List.replicate n 1)).length = 2 * n
  | 0 => rfl
  | n + 1 => by
    have h : shapeStr (List.replicate (n + 1) 1)
        = (natBytes 1 ++ [44]) ++ shapeStr (List.replicate n 1) := by
      show shapeFold (List.replicate n 1) (([] : List Nat) ++ natBytes 1 ++ [44]) = _
      rw [shapeFold_append]
      simp
    rw [h]
    have hnb : (natBytes 1).length = 1 := rfl
    simp only [List.length_append, hnb, List.length_cons, List.length_nil,
      shapeStr_replicate_one n]
    omega

/-! ## Claim C3 -/

/-- C3: the byte offset at which the payload begins, modulo 64, for
every written file: it is 0 (64-aligned) exactly when version 1 is
selected, and 2 whenever the version-2 branch is taken — the source
computes the padding before selecting the version, and the
`beginning_length += 2` of the version-2 branch (line 780) is dead, so
the two extra length-field bytes are never compensated and every
version-2 payload is misaligned.  The version-2 branch is reachable,
e.g. by the shape of 32768 extents of 1, whose header of 65591 bytes
pushes the padded v1 preamble to 65664 > 65535. -/
theorem C3_payload_offset_mod64 (e : Bool) (shape : List Nat) (dtype : DType)
    (c : Bool) :
    (write_npy_preamble e shape dtype c).length % 64 =
      if npyBeginning e shape dtype c + npyPadding e shape dtype c > 65535
      then 2 else 0 := by
  have hP : (headerPadded e shape dtype c).length
      = (headerBytes e shape dtype c).length +
        (npyPadding e shape dtype c - 1) + 1 := by
    unfold headerPadded
    rw [List.length_append, List.length_append, List.length_replicate]
    rfl
  have hPad : npyPadding e shape dtype c =
      64 - npyBeginning e shape dtype c % 64 := rfl
  have hB : npyBeginning e shape dtype c =
      10 + (headerBytes e shape dtype c).length := by
    unfold npyBeginning
    omega
  have hmag : (magicBytes : List Nat).length = 6 := rfl
  have hver : ([npyMajor e shape dtype c, 0] : List Nat).length = 2 := rfl
  by_cases hv : npyBeginning e shape dtype c + npyPadding e shape dtype c
      > 65535
  · have hm : npyMajor e shape dtype c = 2 := by
      unfold npyMajor
      rw [if_pos hv]
    have hL : (npyLenBytes e shape dtype c).length = 4 := by
      unfold npyLenBytes
      rw [hm, if_neg (by decide)]
      cases e
      · rfl
      · rfl
    rw [if_pos hv]
    unfold write_npy_preamble
    rw [List.length_append, List.length_append, List.length_append, hmag,
      hver, hL, hP]
    have hlt : npyBeginning e shape dtype c % 64 < 64 := by omega
    omega
  · have hm : npyMajor e shape dtype c = 1 := by
      unfold npyMajor
      rw [if_neg hv]
    have hL : (npyLenBytes e shape dtype c).length = 2 := by
      unfold npyLenBytes
      rw [hm, if_pos rfl]
      cases e
      · rfl
      · rfl
    rw [if_neg hv]
    unfold write_npy_preamble
    rw [List.length_append, List.length_append, List.length_append, hmag,
      hver, hL, hP]
    have hlt : npyBeginning e shape dtype c % 64 < 64 := by omega
    omega

/-! ## Claim C10 -/

/-- C10: in decode, the fortran_order token is mapped to RowMajor
(c_contiguous true) exactly when it is the string False; every other
comma-terminated token — True, but also any misspelled token — is
silently mapped to ColumnMajor, and the mapping never raises a
malformed-file error for an unrecognized token.  Concretely the tokens
True and the misspelled Flase both yield ColumnMajor with no error. -/
theorem C10_fortran_order_mapping :
    (∀ (header : List Nat) (loc : Nat) (tok : List Nat),
      strFind fortranKey header = some loc →
      scanUntil 44 (header.drop (loc + 17)) = some tok →
      parseFortran header = .ok (tok == falseTok)) ∧
    (∀ (header : List Nat) (loc : Nat) (tok : List Nat),
      strFind fortranKey header = some loc →
      scanUntil 44 (header.drop (loc + 17)) = some tok → tok ≠ falseTok →
      parseFortran header = .ok false) ∧
    parseFortran (fortranKey ++ [84, 114, 117, 101, 44]) = .ok false ∧
    parseFortran (fortranKey ++ [70, 108, 97, 115, 101, 44]) = .ok false ∧
    parseFortran (fortranKey ++ [70, 97, 108, 115, 101, 44]) = .ok true := by
  have h1 : ∀ (header : List Nat) (loc : Nat) (tok : List Nat),
      strFind fortranKey header = some loc →
      scanUntil 44 (header.drop (loc + 17)) = some tok →
      parseFortran header = .ok (tok == falseTok) := by
    intro header loc tok hf hs
    unfold parseFortran
    rw [hf]
    show (match scanUntil 44 (header.drop (loc + 17)) with
      | none => Except.error NpErr.malformedHeader
      | some tok => Except.ok (tok == falseTok)) = _
    rw [hs]
  refine ⟨h1, ?_, by decide, by decide, by decide⟩
  intro header loc tok hf hs hne
  rw [h1 header loc tok hf hs, beq_eq_false_iff_ne.mpr hne]

/-- Witness for C10 on a header with the unrecognized one-byte token X. -/
theorem C10_witness : parseFortran (fortranKey ++ [88, 44]) = .ok false :=
  C10_fortran_order_mapping.2.1 (fortranKey ++ [88, 44]) 0 [88]
    (by decide) (by decide) (by decide)

/-! ## Supporting lemmas: substring search and exact reads -/

theorem takeExact_append (a b : List α) (n : Nat) (h : a.length = n) :
    takeExact n (a ++ b) = some (a, b) := by
  unfold takeExact
  rw [if_pos (by rw [List.length_append]; omega)]
  rw [List.take_left' h, List.drop_left' h]

theorem drop_append_le (a b : List α) (n : Nat) (h : n ≤ a.length) :
    (a ++ b).drop n = a.drop n ++ b := by
  rw [List.drop_append_eq_append_drop, Nat.sub_eq_zero_of_le h,
    List.drop_zero]

theorem prefix_append_iff_of_le {pat a : List Nat} (b : List Nat)
    (h : pat.length ≤ a.length) : pat <+: (a ++ b) ↔ pat <+: a := by
  constructor
  · intro hp
    rw [List.prefix_iff_eq_take] at hp ⊢
    rw [List.take_append_eq_append_take, Nat.sub_eq_zero_of_le h,
      List.take_zero, List.append_nil] at hp
    exact hp
  · intro hp
    exact hp.trans (List.prefix_append a b)

theorem isPrefixOf_append_of_le (pat a b : List Nat)
    (h : pat.length ≤ a.length) :
    pat.isPrefixOf (a ++ b) = pat.isPrefixOf a := by
  by_cases hq : pat <+: a
  · rw [List.isPrefixOf_iff_prefix.mpr hq,
      List.isPrefixOf_iff_prefix.mpr ((prefix_append_iff_of_le b h).mpr hq)]
  · have e1 : pat.isPrefixOf (a ++ b) = false := by
      cases hb : pat.isPrefixOf (a ++ b)
      · rfl
      · exact absurd ((prefix_append_iff_of_le b h).mp
          (List.isPrefixOf_iff_prefix.mp hb)) hq
    have e2 : pat.isPrefixOf a = false := by
      cases hb : pat.isPrefixOf a
      · rfl
      · exact absurd (List.isPrefixOf_iff_prefix.mp hb) hq
    rw [e1, e2]

theorem strFind_cons (pat : List Nat) (a : Nat) (t : List Nat) :
    strFind pat (a :: t) =
      if pat.isPrefixOf (a :: t) then some 0
      else (strFind pat t).map (· + 1) := rfl

theorem strFind_append_left (pat a b : List Nat) (i : Nat)
    (hf : strFind pat a = some i) (hfit : i + pat.length ≤ a.length) :
    strFind pat (a ++ b) = some i := by
  induction a generalizing i with
  | nil =>
    unfold strFind at hf
    by_cases hp : pat.isPrefixOf ([] : List Nat)
    · rw [if_pos hp] at hf
      injection hf with hf
      subst hf
      have hpe : pat = [] :=
        List.prefix_nil.mp (List.isPrefixOf_iff_prefix.mp hp)
      subst hpe
      cases b with
      | nil => rfl
      | cons x t =>
        rw [List.nil_append, strFind_cons,
          if_pos (by simp [List.isPrefixOf])]
    · rw [if_neg hp] at hf
      exact Option.noConfusion hf
  | cons x t ih =>
    rw [show (x :: t) ++ b = x :: (t ++ b) from rfl, strFind_cons]
    rw [strFind_cons] at hf
    have hple : pat.length ≤ (x :: t).length := by omega
    rw [show x :: (t ++ b) = (x :: t) ++ b from rfl,
      isPrefixOf_append_of_le pat (x :: t) b hple]
    by_cases hp : pat.isPrefixOf (x :: t)
    · rw [if_pos hp] at hf ⊢
      exact hf
    · rw [if_neg hp] at hf ⊢
      cases hft : strFind pat t with
      | none => rw [hft] at hf; exact Option.noConfusion hf
      | some j =>
        rw [hft] at hf
        simp only [Option.map_some'] at hf
        injection hf with hf
        subst hf
        have hfit' : j + pat.length ≤ t.length := by
          simp only [List.length_cons] at hfit
          omega
        rw [ih j hft hfit']
        rfl

theorem singleton_isPrefixOf_cons (x a : Nat) (t : List Nat) :
    ([x] : List Nat).isPrefixOf (a :: t) = (x == a) := by
  simp [List.isPrefixOf]

theorem strFind_singleton_none (x : Nat) :
    ∀ l : List Nat, x ∉ l → strFind [x] l = none
  | [], _ => rfl
  | a :: t, h => by
    have hx : x ≠ a := fun hh => h (hh ▸ List.mem_cons_self a t)
    rw [strFind_cons, singleton_isPrefixOf_cons,
      if_neg (by simpa using hx)]
    rw [strFind_singleton_none x t (fun hh => h (List.mem_cons_of_mem a hh))]
    rfl

theorem strFind_singleton_append (x : Nat) (a b : List Nat) (h : x ∉ a) :
    strFind [x] (a ++ b) = (strFind [x] b).map (· + a.length) := by
  induction a with
  | nil =>
    simp only [List.nil_append, List.length_nil]
    cases strFind [x] b with
    | none => rfl
    | some j => simp
  | cons y t ih =>
    have hx : x ≠ y := fun hh => h (hh ▸ List.mem_cons_self y t)
    have ht : x ∉ t := fun hh => h (List.mem_cons_of_mem y hh)
    rw [show (y :: t) ++ b = y :: (t ++ b) from rfl, strFind_cons,
      singleton_isPrefixOf_cons, if_neg (by simpa using hx), ih ht]
    cases strFind [x] b with
    | none => rfl
    | some j =>
      simp only [Option.map_some', Option.map_map, List.length_cons]
      simp only [Option.some.injEq]
      show j + t.length + 1 = j + (t.length + 1)
      omega

/-! ## Supporting lemmas: the three header-field parsers -/

theorem parseFortran_of (header : List Nat) (loc : Nat) (tok : List Nat)
    (hf : strFind fortranKey header = some loc)
    (hs : scanUntil 44 (header.drop (loc + 17)) = some tok) :
    parseFortran header = .ok (tok == falseTok) := by
  unfold parseFortran
  rw [hf]
  show (match scanUntil 44 (header.drop (loc + 17)) with
    | none => Except.error NpErr.malformedHeader
    | some tok => Except.ok (tok == falseTok)) = _
  rw [hs]

theorem parseDescr_of (header : List Nat) (loc : Nat) (tok : List Nat)
    (dt : DType) (hf : strFind descrKey header = some loc)
    (hs : scanUntil 39 (header.drop (loc + 9 + 2)) = some tok)
    (hd : descr_to_DType tok = .ok dt) :
    parseDescr header = .ok (!(nth header (loc + 9 + 1) == 62), dt) := by
  unfold parseDescr
  rw [hf]
  show (match scanUntil 39 (header.drop (loc + 9 + 2)) with
    | none => Except.error NpErr.malformedHeader
    | some tok =>
      match descr_to_DType tok with
      | Except.error er => Except.error er
      | Except.ok dt => Except.ok (!(nth header (loc + 9 + 1) == 62), dt)) = _
  rw [hs]
  show (match descr_to_DType tok with
    | Except.error er => Except.error er
    | Except.ok dt => Except.ok (!(nth header (loc + 9 + 1) == 62), dt)) = _
  rw [hd]

theorem parseShape_of (header : List Nat) (l1 l2 : Nat)
    (hf1 : strFind [40] header = some l1)
    (hf2 : strFind [41] header = some l2) (hne : ¬ l1 + 1 = l2) :
    parseShape header =
      splitStoi ((header.drop (l1 + 1)).take (l2 - (l1 + 1))) [] [] := by
  unfold parseShape
  rw [hf1]
  show (match strFind [41] header with
    | none => Except.error NpErr.malformedHeader
    | some l2 =>
      if l1 + 1 = l2 then Except.ok [1]
      else splitStoi ((header.drop (l1 + 1)).take (l2 - (l1 + 1))) [] []) = _
  rw [hf2]
  show (if l1 + 1 = l2 then Except.ok [1]
    else splitStoi ((header.drop (l1 + 1)).take (l2 - (l1 + 1))) [] []) = _
  rw [if_neg hne]

/-! ## Supporting lemmas: the shape splitter on written shape text -/

theorem shapeStr_cons (d : Nat) (tl : List Nat) :
    shapeStr (d :: tl) = (natBytes d ++ [44]) ++ shapeStr tl := by
  show shapeFold tl (([] : List Nat) ++ natBytes d ++ [44]) = _
  rw [shapeFold_append]
  simp

theorem splitStoi_tok : ∀ (tokb rest temp acc : List Nat),
    (∀ c ∈ tokb, c ≠ 44) →
    splitStoi (tokb ++ rest) temp acc = splitStoi rest (temp ++ tokb) acc
  | [], rest, temp, acc, _ => by simp
  | c :: tb, rest, temp, acc, h => by
    rw [show (c :: tb) ++ rest = c :: (tb ++ rest) from rfl]
    show (if c ≠ 44 then splitStoi (tb ++ rest) (temp ++ [c]) acc
      else if temp.isEmpty then splitStoi (tb ++ rest) [] acc
      else match stoiNat temp with
        | Except.error er => Except.error er
        | Except.ok v => splitStoi (tb ++ rest) [] (acc ++ [v])) = _
    rw [if_pos (h c (List.mem_cons_self c tb))]
    rw [splitStoi_tok tb rest (temp ++ [c]) acc
      (fun x hx => h x (List.mem_cons_of_mem c hx))]
    simp

theorem splitStoi_comma (rest temp acc : List Nat) (v : Nat)
    (hne : temp ≠ []) (hv : stoiNat temp = .ok v) :
    splitStoi (44 :: rest) temp acc = splitStoi rest [] (acc ++ [v]) := by
  show (if (44 : Nat) ≠ 44 then splitStoi rest (temp ++ [44]) acc
    else if temp.isEmpty then splitStoi rest [] acc
    else match stoiNat temp with
      | Except.error er => Except.error er
      | Except.ok v => splitStoi rest [] (acc ++ [v])) = _
  rw [if_neg (by simp), if_neg (by simpa [List.isEmpty_iff] using hne), hv]

theorem splitStoi_shapeStr : ∀ (shape acc : List Nat),
    (∀ d ∈ shape, d ≤ INT_MAX) →
    splitStoi (shapeStr shape) [] acc = .ok (acc ++ shape)
  | [], acc, _ => by
    show splitStoi (shapeFold [] []) [] acc = _
    show (if ([] : List Nat).isEmpty then Except.ok acc
      else match stoiNat [] with
        | Except.error er => Except.error er
        | Except.ok v => Except.ok (acc ++ [v])) = _
    rw [if_pos (show ([] : List Nat).isEmpty = true from rfl)]
    simp
  | d :: tl, acc, h => by
    rw [shapeStr_cons,
      show (natBytes d ++ [44]) ++ shapeStr tl
        = natBytes d ++ (44 :: shapeStr tl) from by simp]
    rw [splitStoi_tok (natBytes d) (44 :: shapeStr tl) [] acc
      (fun c hc => by have := natBytes_digits d c hc; omega)]
    rw [show ([] : List Nat) ++ natBytes d = natBytes d from by simp]
    rw [splitStoi_comma (shapeStr tl) (natBytes d) acc d (natBytes_ne_nil d)
      (stoiNat_natBytes d (h d (List.mem_cons_self d tl)))]
    rw [splitStoi_shapeStr tl (acc ++ [d])
      (fun x hx => h x (List.mem_cons_of_mem d hx))]
    simp

/-! ## Supporting lemmas: parsing a header the writer produced -/

theorem fortranKey_length : (fortranKey : List Nat).length = 17 := rfl

theorem nth_append_left (a b : List Nat) (i : Nat) (h : i < a.length) :
    nth (a ++ b) i = nth a i := by
  unfold nth
  exact List.getD_append a b 0 i h

theorem descrPart_fortran_find (e : Bool) (dtype : DType) :
    strFind fortranKey (descrPart e dtype ++ fortranKey) =
      some (descrPart e dtype).length := by
  cases e <;> cases dtype <;> decide

theorem scan_fstr (c : Bool) (tail : List Nat) :
    scanUntil 44 (fstrPart c ++ tail) =
      some (if c then falseTok else [84, 114, 117, 101]) := by
  cases c <;>
    simp [fstrPart, falseCommaSp, trueCommaSp, falseTok, scanUntil]

theorem parseFortran_written (e : Bool) (dtype : DType) (c : Bool)
    (tail : List Nat) :
    parseFortran (headerPre e dtype c ++ tail) = .ok c := by
  have hassoc : headerPre e dtype c ++ tail
      = (descrPart e dtype ++ fortranKey) ++
        (fstrPart c ++ (shapeOpen ++ tail)) := by
    simp [headerPre, List.append_assoc]
  rw [hassoc]
  have hfind := strFind_append_left fortranKey
    (descrPart e dtype ++ fortranKey) (fstrPart c ++ (shapeOpen ++ tail))
    (descrPart e dtype).length (descrPart_fortran_find e dtype)
    (by rw [List.length_append, fortranKey_length])
  have hdl : (descrPart e dtype ++ fortranKey).length
      = (descrPart e dtype).length + 17 := by
    rw [List.length_append, fortranKey_length]
  have hdrop : ((descrPart e dtype ++ fortranKey) ++
      (fstrPart c ++ (shapeOpen ++ tail))).drop
        ((descrPart e dtype).length + 17)
      = fstrPart c ++ (shapeOpen ++ tail) := List.drop_left' hdl
  rw [parseFortran_of _ _ _ hfind
    (by rw [hdrop]; exact scan_fstr c (shapeOpen ++ tail))]
  cases c <;> rfl

theorem descrPart_facts (e : Bool) (dtype : DType) :
    strFind descrKey (descrPart e dtype) = some 1 ∧
    1 + (descrKey : List Nat).length ≤ (descrPart e dtype).length ∧
    12 ≤ (descrPart e dtype).length ∧
    nth (descrPart e dtype) 11 = (if e then 60 else 62) ∧
    (descrPart e dtype).drop 12 = DType_to_descr dtype ++ [39, 44, 32] := by
  cases e <;> cases dtype <;>
    exact ⟨by decide, by decide, by decide, by decide, by decide⟩

theorem scan_descr_tok (dtype : DType) (tail : List Nat) :
    scanUntil 39 ((DType_to_descr dtype ++ [39, 44, 32]) ++ tail) =
      some (DType_to_descr dtype) := by
  cases dtype <;> simp [DType_to_descr, scanUntil]

theorem descr_to_DType_roundtrip (dtype : DType) :
    descr_to_DType (DType_to_descr dtype) = .ok dtype := by
  cases dtype <;> rfl

theorem parseDescr_written (e : Bool) (dtype : DType) (tail : List Nat) :
    parseDescr (descrPart e dtype ++ tail) = .ok (e, dtype) := by
  obtain ⟨hf, hle, h12, hmark, hdrop12⟩ := descrPart_facts e dtype
  have hfind := strFind_append_left descrKey (descrPart e dtype) tail 1 hf hle
  have hd12 : (descrPart e dtype ++ tail).drop 12
      = (DType_to_descr dtype ++ [39, 44, 32]) ++ tail := by
    rw [drop_append_le _ _ 12 h12, hdrop12]
  have hscan : scanUntil 39 ((descrPart e dtype ++ tail).drop (1 + 9 + 2))
      = some (DType_to_descr dtype) := by
    show scanUntil 39 ((descrPart e dtype ++ tail).drop 12) = _
    rw [hd12]
    exact scan_descr_tok dtype tail
  rw [parseDescr_of _ 1 _ dtype hfind hscan (descr_to_DType_roundtrip dtype)]
  have hm : nth (descrPart e dtype ++ tail) (1 + 9 + 1)
      = (if e then 60 else 62) := by
    show nth (descrPart e dtype ++ tail) 11 = _
    rw [nth_append_left _ _ 11 (by omega)]
    exact hmark
  rw [hm]
  cases e <;> rfl

theorem headerPre_paren_facts (e : Bool) (dtype : DType) (c : Bool) :
    strFind [40] (headerPre e dtype c) =
      some ((headerPre e dtype c).length - 1) ∧
    (41 : Nat) ∉ headerPre e dtype c ∧
    1 ≤ (headerPre e dtype c).length := by
  cases e <;> cases dtype <;> cases c <;>
    exact ⟨by decide, by decide, by decide⟩

theorem mem_shapeStr : ∀ (shape : List Nat) (x : Nat),
    x ∈ shapeStr shape → (48 ≤ x ∧ x ≤ 57) ∨ x = 44
  | [], x, h => by
    exact absurd h (by show x ∉ shapeFold [] []; simp [shapeFold])
  | d :: tl, x, h => by
    rw [shapeStr_cons] at h
    rcases List.mem_append.mp h with h1 | h2
    · rcases List.mem_append.mp h1 with ha | hb
      · exact Or.inl (natBytes_digits d x ha)
      · simp at hb
        exact Or.inr hb
    · exact mem_shapeStr tl x h2

theorem shapeStr_len_pos (shape : List Nat) (h : shape ≠ []) :
    1 ≤ (shapeStr shape).length := by
  cases shape with
  | nil => exact absurd rfl h
  | cons d tl =>
    rw [shapeStr_cons]
    simp only [List.length_append, List.length_cons, List.length_nil]
    omega

theorem parseShape_written (e : Bool) (dtype : DType) (c : Bool)
    (shape pad : List Nat) (hsh : shape ≠ [])
    (hd : ∀ d ∈ shape, d ≤ INT_MAX) :
    parseShape (headerPre e dtype c ++ (shapeStr shape ++ (closeDict ++ pad)))
      = .ok shape := by
  obtain ⟨hf40, h41A, hlen1⟩ := headerPre_paren_facts e dtype c
  have hS1 := shapeStr_len_pos shape hsh
  have hfind1 : strFind [40]
      (headerPre e dtype c ++ (shapeStr shape ++ (closeDict ++ pad)))
      = some ((headerPre e dtype c).length - 1) :=
    strFind_append_left _ _ _ _ hf40 (by simp; omega)
  have h41S : (41 : Nat) ∉ shapeStr shape := by
    intro hm
    rcases mem_shapeStr shape 41 hm with ⟨ha, hb⟩ | hc <;> omega
  have hfc : strFind [41] (closeDict ++ pad) = some 0 := by
    rw [show closeDict ++ pad = 41 :: ([44, 32, 125] ++ pad) from rfl,
      strFind_cons, singleton_isPrefixOf_cons, if_pos (by simp)]
  have hfind2 : strFind [41]
      (headerPre e dtype c ++ (shapeStr shape ++ (closeDict ++ pad)))
      = some ((headerPre e dtype c).length + (shapeStr shape).length) := by
    rw [strFind_singleton_append 41 _ _ h41A,
      strFind_singleton_append 41 _ _ h41S, hfc]
    simp only [Option.map_some', Option.some.injEq]
    omega
  rw [parseShape_of _ _ _ hfind1 hfind2 (by omega)]
  have hidx : (headerPre e dtype c).length - 1 + 1
      = (headerPre e dtype c).length := by omega
  rw [hidx, List.drop_left' rfl]
  have hsub : (headerPre e dtype c).length + (shapeStr shape).length -
      (headerPre e dtype c).length = (shapeStr shape).length := by omega
  rw [hsub, List.take_left' rfl]
  simpa using splitStoi_shapeStr shape [] hd

/-! ## Supporting lemmas: the full decode of a written file -/

theorem u16_digits (l : Nat) (h : l < 65536) :
    l % 65536 % 256 + 256 * (l % 65536 / 256) = l := by omega

theorem u32_digits (l : Nat) (h : l < 4294967296) :
    l % 4294967296 % 256 + 256 * (l % 4294967296 / 256 % 256) +
      65536 * (l % 4294967296 / 65536 % 256) +
      16777216 * (l % 4294967296 / 16777216 % 256) = l := by omega

theorem headerPadded_length (e : Bool) (shape : List Nat) (dtype : DType)
    (c : Bool) :
    (headerPadded e shape dtype c).length =
      (headerBytes e shape dtype c).length + npyPadding e shape dtype c := by
  have hPpos : 1 ≤ npyPadding e shape dtype c := by
    unfold npyPadding
    have : npyBeginning e shape dtype c % 64 < 64 :=
      Nat.mod_lt _ (by decide)
    omega
  unfold headerPadded
  rw [List.length_append, List.length_append, List.length_replicate]
  simp only [List.length_cons, List.length_nil]
  omega

theorem npyPadding_le (e : Bool) (shape : List Nat) (dtype : DType)
    (c : Bool) : npyPadding e shape dtype c ≤ 64 := by
  unfold npyPadding
  omega

/-- Decoding a file the encoder produced, on a little-endian host,
recovers the payload, shape, dtype and layout exactly, provided the
shape is nonempty, each extent fits std::stoi's int range, the payload
byte count is below 2^64 (so the size_t byte count is exact), and the
header fits the 4-byte length field. -/
theorem load_write_roundtrip (payload shape : List Nat) (dtype : DType)
    (c : Bool) (hsh : shape ≠ [])
    (hdims : ∀ d ∈ shape, d ≤ INT_MAX)
    (hpl : payload.length = neOf shape * size_of_DType dtype)
    (hfit : neOf shape * size_of_DType dtype < U64)
    (hhdr : (headerBytes true shape dtype c).length + 64 < 4294967296) :
    load_npy true (write_npy true payload shape dtype c) =
      .ok (payload, shape, dtype, c) := by
  have hHPlen := headerPadded_length true shape dtype c
  have hPle := npyPadding_le true shape dtype c
  have hB : npyBeginning true shape dtype c
      = 10 + (headerBytes true shape dtype c).length := by
    unfold npyBeginning
    omega
  have hfile : write_npy true payload shape dtype c
      = magicBytes ++ ([npyMajor true shape dtype c, 0] ++
        (npyLenBytes true shape dtype c ++
          (headerPadded true shape dtype c ++ payload))) := by
    unfold write_npy write_npy_preamble
    rw [Nat.mod_eq_of_lt hfit, ← hpl, List.take_length]
    simp [List.append_assoc]
  -- the three header fields parse back to what was written
  have hHP2 : headerPadded true shape dtype c
      = headerPre true dtype c ++ (shapeStr shape ++ (closeDict ++
        (List.replicate (npyPadding true shape dtype c - 1) 32 ++ [10]))) := by
    unfold headerPadded
    rw [headerBytes_eq]
    simp [List.append_assoc]
  have hpf : parseFortran (headerPadded true shape dtype c) = .ok c := by
    rw [hHP2]
    exact parseFortran_written true dtype c _
  have hpd : parseDescr (headerPadded true shape dtype c)
      = .ok (true, dtype) := by
    rw [hHP2, show headerPre true dtype c ++ (shapeStr shape ++ (closeDict ++
        (List.replicate (npyPadding true shape dtype c - 1) 32 ++ [10])))
      = descrPart true dtype ++ (fortranKey ++ (fstrPart c ++ (shapeOpen ++
        (shapeStr shape ++ (closeDict ++
          (List.replicate (npyPadding true shape dtype c - 1) 32 ++ [10]))))))
      from by simp [headerPre, List.append_assoc]]
    exact parseDescr_written true dtype _
  have hps : parseShape (headerPadded true shape dtype c) = .ok shape := by
    rw [hHP2]
    exact parseShape_written true dtype c shape _ hsh hdims
  -- the length field reads back as the padded header size
  have hlenfield : readLenField true
      (nth [npyMajor true shape dtype c, 0] 0)
      (npyLenBytes true shape dtype c ++
        (headerPadded true shape dtype c ++ payload)) =
      .ok ((headerPadded true shape dtype c).length,
        headerPadded true shape dtype c ++ payload) := by
    have hnth : nth [npyMajor true shape dtype c, 0] 0
        = npyMajor true shape dtype c := rfl
    rw [hnth]
    by_cases hv : npyBeginning true shape dtype c +
        npyPadding true shape dtype c > 65535
    · have hM : npyMajor true shape dtype c = 2 := by
        unfold npyMajor
        rw [if_pos hv]
      have hlt : (headerPadded true shape dtype c).length < 4294967296 := by
        omega
      have hLB : npyLenBytes true shape dtype c =
          [(headerPadded true shape dtype c).length % 4294967296 % 256,
           (headerPadded true shape dtype c).length % 4294967296 / 256 % 256,
           (headerPadded true shape dtype c).length % 4294967296 / 65536 % 256,
           (headerPadded true shape dtype c).length % 4294967296 / 16777216 % 256] := by
        unfold npyLenBytes
        rw [hM, if_neg (by decide), if_pos rfl]
      rw [hM, hLB]
      unfold readLenField
      rw [if_neg (by decide), if_pos (by constructor <;> decide)]
      rw [takeExact_append
        [(headerPadded true shape dtype c).length % 4294967296 % 256,
         (headerPadded true shape dtype c).length % 4294967296 / 256 % 256,
         (headerPadded true shape dtype c).length % 4294967296 / 65536 % 256,
         (headerPadded true shape dtype c).length % 4294967296 / 16777216 % 256]
        (headerPadded true shape dtype c ++ payload) 4 rfl]
      exact congrArg
        (fun v => (Except.ok (v, headerPadded true shape dtype c ++ payload) :
          Except NpErr (Nat × List Nat)))
        (by
          show (headerPadded true shape dtype c).length % 4294967296 % 256 +
            256 * ((headerPadded true shape dtype c).length % 4294967296
              / 256 % 256) +
            65536 * ((headerPadded true shape dtype c).length % 4294967296
              / 65536 % 256) +
            16777216 * ((headerPadded true shape dtype c).length % 4294967296
              / 16777216 % 256) =
            (headerPadded true shape dtype c).length
          exact u32_digits _ hlt)
    · have hM : npyMajor true shape dtype c = 1 := by
        unfold npyMajor
        rw [if_neg hv]
      have hlt : (headerPadded true shape dtype c).length < 65536 := by
        omega
      have hLB : npyLenBytes true shape dtype c =
          [(headerPadded true shape dtype c).length % 65536 % 256,
           (headerPadded true shape dtype c).length % 65536 / 256] := by
        unfold npyLenBytes
        rw [hM, if_pos rfl, if_pos rfl]
      rw [hM, hLB]
      unfold readLenField
      rw [if_pos rfl]
      rw [takeExact_append
        [(headerPadded true shape dtype c).length % 65536 % 256,
         (headerPadded true shape dtype c).length % 65536 / 256]
        (headerPadded true shape dtype c ++ payload) 2 rfl]
      exact congrArg
        (fun v => (Except.ok (v, headerPadded true shape dtype c ++ payload) :
          Except NpErr (Nat × List Nat)))
        (by
          show (headerPadded true shape dtype c).length % 65536 % 256 +
            256 * ((headerPadded true shape dtype c).length % 65536 / 256) =
            (headerPadded true shape dtype c).length
          exact u16_digits _ hlt)
  -- assemble the full decode
  unfold load_npy
  rw [hfile]
  have t1 := takeExact_append magicBytes
    ([npyMajor true shape dtype c, 0] ++ (npyLenBytes true shape dtype c ++
      (headerPadded true shape dtype c ++ payload))) 6 rfl
  simp only [t1]
  rw [if_neg (by simp)]
  have t2 := takeExact_append [npyMajor true shape dtype c, 0]
    (npyLenBytes true shape dtype c ++
      (headerPadded true shape dtype c ++ payload)) 2 rfl
  simp only [t2]
  simp only [hlenfield]
  have t3 := takeExact_append (headerPadded true shape dtype c) payload
    (headerPadded true shape dtype c).length rfl
  simp only [t3]
  simp only [hpf, hpd, hps]
  have t4 : neOf shape * size_of_DType dtype % U64 = payload.length := by
    rw [Nat.mod_eq_of_lt hfit, hpl]
  simp only [t4]
  have t5 : takeExact payload.length payload = some (payload, []) := by
    unfold takeExact
    rw [if_pos (Nat.le_refl _), List.take_length, List.drop_length]
  simp only [t5]
  simp

/-! ## Supporting lemmas: element chunking -/

theorem flatten_length_const : ∀ (els : List (List Nat)) (w : Nat),
    (∀ el ∈ els, el.length = w) → els.flatten.length = els.length * w
  | [], _, _ => by simp
  | el :: tl, w, h => by
    simp only [List.flatten_cons, List.length_append, List.length_cons]
    rw [flatten_length_const tl w (fun x hx => h x (List.mem_cons_of_mem el hx)),
      h el (List.mem_cons_self el tl)]
    ring

theorem chunksOf_flatten : ∀ (els : List (List Nat)) (w : Nat),
    (∀ el ∈ els, el.length = w) → chunksOf w els.length els.flatten = els
  | [], _, _ => rfl
  | el :: tl, w, h => by
    have hel : el.length = w := h el (List.mem_cons_self el tl)
    show (el ++ tl.flatten).take w ::
      chunksOf w tl.length ((el ++ tl.flatten).drop w) = el :: tl
    rw [List.take_left' hel, List.drop_left' hel,
      chunksOf_flatten tl w (fun x hx => h x (List.mem_cons_of_mem el hx))]

/-! ## Claim C1 -/

set_option maxRecDepth 40000 in
/-- C1 counterexample: save-then-load does not recover every array.
First conjunct: on a big-endian host, a one-element CHAR array fails
to reload — the writer correctly emits the 2-byte header length
little-endian, but the reader's byte-order correction is a no-op
(C7's swap_bytes width-1 call), so the length is misread as 30208 and
the read runs off the file.  Second conjunct: on a little-endian host,
an array whose shape contains the extent 2^31 = 2147483648 (total
element count 0, so the array itself is tiny) fails to reload because
load parses the extent with std::stoi, which throws beyond INT_MAX. -/
theorem C1_counterexample :
    NPArr.load false DType.CHAR
      (NPArr.save false DType.CHAR ⟨[[97]], [1], true, 1⟩) =
      Except.error NpErr.truncated ∧
    NPArr.load true DType.CHAR
      (NPArr.save true DType.CHAR ⟨[], [2147483648, 0], true, 2⟩) =
      Except.error NpErr.stoiFailure := by
  constructor
  · decide
  · decide

/-- C1 (amended): on a little-endian host, for every supported DType
and every well-formed array (rank >= 1, dimensions in sync, element
count matching the shape, every element of the dtype's width) whose
extents are at most INT_MAX, whose payload byte count fits size_t and
whose header fits the 4-byte length field, saving and reloading yields
an array equal to the original in shape, layout flag, and every
element (elements are their raw byte representations, so equality is
bit-exactness). -/
theorem C1_roundtrip (dtype : DType) (arr : NPArr (List Nat))
    (h1 : 1 ≤ arr.shape_.length)
    (h2 : arr.dimensions_ = arr.shape_.length)
    (h3 : arr.data_.length = neOf arr.shape_)
    (h4 : ∀ el ∈ arr.data_, el.length = size_of_DType dtype)
    (h5 : ∀ d ∈ arr.shape_, d ≤ INT_MAX)
    (h6 : neOf arr.shape_ * size_of_DType dtype < U64)
    (h7 : (headerBytes true arr.shape_ dtype arr.c_continuous_).length + 64
      < 4294967296) :
    NPArr.load true dtype (NPArr.save true dtype arr) = .ok arr := by
  obtain ⟨data, shape, cc, dims⟩ := arr
  simp only at h1 h2 h3 h4 h5 h6 h7
  have hsh : shape ≠ [] := by
    intro he
    rw [he] at h1
    simp at h1
  have hflat : (List.flatten data).length
      = neOf shape * size_of_DType dtype := by
    rw [flatten_length_const data _ h4, h3]
  have hrt := load_write_roundtrip (List.flatten data) shape dtype cc
    hsh h5 hflat h6 h7
  unfold NPArr.save NPArr.load
  simp only [hrt]
  rw [if_neg (by simp)]
  rw [if_neg (by omega)]
  have hchunk : chunksOf (size_of_DType dtype) (neOf shape)
      (List.flatten data) = data := by
    rw [← h3]
    exact chunksOf_flatten data _ h4
  rw [hchunk]
  unfold NPArr.mkData
  rw [if_pos (by omega), if_neg (by omega)]
  show Except.ok ⟨data, shape, cc, shape.length⟩
    = (Except.ok ⟨data, shape, cc, dims⟩ : Except NpErr (NPArr (List Nat)))
  rw [h2]

/-- Witness for C1 on a concrete two-element CHAR array. -/
theorem C1_witness :
    NPArr.load true DType.CHAR
      (NPArr.save true DType.CHAR ⟨[[7], [8]], [2], true, 1⟩) =
      Except.ok ⟨[[7], [8]], [2], true, 1⟩ :=
  C1_roundtrip DType.CHAR ⟨[[7], [8]], [2], true, 1⟩ (by decide) (by decide)
    (by decide) (by decide) (by decide) (by decide) (by decide)

end Np
